import Mathlib

/-!
# Verification of the gojbig2 JBIG2 decoder core

Shallow embedding of the decoder's data model and algorithms, translated from
the Go sources (`internal/jbig2/*.go` and the unnamed parts), together with
theorems settling the specification claims about them.

Conventions:
* Go byte slices become `List Nat` with every element intended `< 256`.
* Go fixed-width unsigned arithmetic is modelled on `Nat` with explicit
  `% 2^w` where the Go code can overflow.
* Fallible Go functions (returning `error`) become `Option`/`Except`-valued
  Lean functions; `none` / `.error` is the error case.
* The MQ arithmetic decoder together with its context array is a deterministic
  stateful object shared by the code paths under comparison.  It is abstracted
  as an oracle: a state type with `decode : σ → Nat → Option (Bool × σ)`
  (context index in, decision bit and next state out, `none` on a decode
  error) and `isComplete : σ → Bool` (the `IsComplete` pre-check done by the
  callers).  `ArithDecoder.Decode` in the source returns only 0 or 1, which is
  what `Bool` captures.
-/

namespace GoJbig2

/-! ## Bitstream (internal/jbig2/segment.go, `BitStream`) -/

/-- `maxSpanSize` from segment.go: 256 MiB cap on the input buffer. -/
def maxSpanSize : Nat := 256 * 1024 * 1024

/-- Translation of `BitStream`: byte buffer plus `(byteIx, bitIx)`. -/
structure BitStream where
  buf : List Nat
  byteIx : Nat
  bitIx : Nat
  deriving Repr, DecidableEq

namespace BitStream

/-- `NewBitStream`: inputs larger than 256 MiB are dropped (buffer becomes empty). -/
def new (data : List Nat) : BitStream :=
  if data.length > maxSpanSize then { buf := [], byteIx := 0, bitIx := 0 }
  else { buf := data, byteIx := 0, bitIx := 0 }

/-- `InBounds`: the current byte index lies inside the buffer. -/
def inBounds (bs : BitStream) : Bool := bs.byteIx < bs.buf.length

/-- `lengthInBits`. -/
def lengthInBits (bs : BitStream) : Nat := bs.buf.length * 8

/-- `BitPos`: absolute bit position. -/
def bitPos (bs : BitStream) : Nat := bs.byteIx * 8 + bs.bitIx

/-- `advanceBit`: move one bit forward, wrapping `bitIx` at 8. -/
def advanceBit (bs : BitStream) : BitStream :=
  if bs.bitIx = 7 then { bs with byteIx := bs.byteIx + 1, bitIx := 0 }
  else { bs with bitIx := bs.bitIx + 1 }

/-- The byte currently addressed (0 if out of range, which the callers guard). -/
def curByteRaw (bs : BitStream) : Nat := bs.buf.getD bs.byteIx 0

/-- One iteration step of the `ReadNBits` accumulation loop:
`result = (result << 1) | bit` on `uint32`. -/
def readBitsLoop : Nat → Nat → BitStream → Nat × BitStream
  | 0, acc, bs => (acc, bs)
  | n + 1, acc, bs =>
      readBitsLoop n ((acc * 2 + ((bs.curByteRaw >>> (7 - bs.bitIx)) &&& 1)) % 2 ^ 32)
        bs.advanceBit

/-- `ReadNBits`: reads up to `count` bits MSB-first; truncates at the end of
the buffer; errors only when the stream is already out of bounds. -/
def readNBits (bs : BitStream) (count : Nat) : Option (Nat × BitStream) :=
  if ¬ bs.inBounds then none
  else if bs.bitPos > bs.lengthInBits then none
  else
    let bitsToRead := if bs.bitPos + count ≤ bs.lengthInBits then count
      else bs.lengthInBits - bs.bitPos
    some (readBitsLoop bitsToRead 0 bs)

/-- `Read1Bit`. -/
def read1Bit (bs : BitStream) : Option (Nat × BitStream) :=
  if ¬ bs.inBounds then none
  else some ((bs.curByteRaw >>> (7 - bs.bitIx)) &&& 1, bs.advanceBit)

/-- `ReadByte`. -/
def readByte (bs : BitStream) : Option (Nat × BitStream) :=
  if ¬ bs.inBounds then none
  else some (bs.curByteRaw, { bs with byteIx := bs.byteIx + 1 })

/-- `ReadUint32`: big-endian, requires 4 bytes from `byteIx` (bit index ignored,
as in the source). -/
def readUint32 (bs : BitStream) : Option (Nat × BitStream) :=
  if bs.byteIx + 3 ≥ bs.buf.length then none
  else some (bs.buf.getD bs.byteIx 0 * 2 ^ 24 + bs.buf.getD (bs.byteIx + 1) 0 * 2 ^ 16 +
      bs.buf.getD (bs.byteIx + 2) 0 * 2 ^ 8 + bs.buf.getD (bs.byteIx + 3) 0,
    { bs with byteIx := bs.byteIx + 4 })

/-- `ReadUint16`: big-endian, requires 2 bytes. -/
def readUint16 (bs : BitStream) : Option (Nat × BitStream) :=
  if bs.byteIx + 1 ≥ bs.buf.length then none
  else some (bs.buf.getD bs.byteIx 0 * 2 ^ 8 + bs.buf.getD (bs.byteIx + 1) 0,
    { bs with byteIx := bs.byteIx + 2 })

/-- `SetOffset`: clamps to the buffer length. -/
def setOffset (bs : BitStream) (offset : Nat) : BitStream :=
  { bs with byteIx := min offset bs.buf.length }

/-- `AddOffset`: saturating add, clamped first at `2^32 - 1` (the `uint32`
saturation in the source) and then at the buffer length by `setOffset`. -/
def addOffset (bs : BitStream) (delta : Nat) : BitStream :=
  bs.setOffset (min (bs.byteIx + delta) (2 ^ 32 - 1))

/-- `AlignByte`. -/
def alignByte (bs : BitStream) : BitStream :=
  if bs.bitIx ≠ 0 then { bs.addOffset 1 with bitIx := 0 } else bs

/-- `BytesLeft`. -/
def bytesLeft (bs : BitStream) : Nat :=
  if bs.byteIx ≥ bs.buf.length then 0 else bs.buf.length - bs.byteIx

/-- `CurByte`: 0 when out of bounds. -/
def curByte (bs : BitStream) : Nat :=
  if bs.inBounds then bs.curByteRaw else 0

/-- Well-formedness maintained by all operations: the bit index never exceeds 7. -/
def wf (bs : BitStream) : Prop := bs.bitIx ≤ 7

end BitStream

/-! ## Image (unnamed/part_005, `CJBig2_Image` translation) -/

/-- `maxImagePixels` = INT_MAX - 31 (32-bit C++). -/
def maxImagePixels : Int := 2 ^ 31 - 1 - 31

/-- `maxImageBytes` = `maxImagePixels / 8`. -/
def maxImageBytes : Int := maxImagePixels / 8

/-- `JBig2MaxImageSize` (part_004). -/
def JBig2MaxImageSize : Int := 65535

/-- Go `int32(x)` conversion on a mathematical integer: wrap modulo `2^32`
into `[-2^31, 2^31)`. -/
def toInt32 (n : Int) : Int := (n + 2 ^ 31) % 2 ^ 32 - 2 ^ 31

/-- `alignTo32`. -/
def alignTo32 (v : Int) : Int := (v + 31) / 32 * 32

/-- Translation of `Image`: dimensions are stored as the non-negative values
the constructors produce; `data` is `none` exactly when the Go field is `nil`. -/
structure Image where
  width : Nat
  height : Nat
  stride : Nat
  data : Option (List Nat)
  owned : Bool
  deriving Repr, DecidableEq

namespace Image

/-- The all-zero image the constructors return on invalid parameters
(`img := &Image{}` before any field assignment). -/
def empty : Image := { width := 0, height := 0, stride := 0, data := none, owned := false }

/-- `NewImage`: owned buffer with the stride aligned to 32 bits. -/
def newImage (w h : Int) : Image :=
  if w ≤ 0 ∨ h ≤ 0 ∨ w > maxImagePixels then empty
  else
    let stridePixels := alignTo32 w
    if h > maxImagePixels / stridePixels then empty
    else
      let stride := (stridePixels / 8).toNat
      let size := stride * h.toNat
      if size = 0 then empty
      else { width := w.toNat, height := h.toNat, stride := stride,
             data := some (List.replicate size 0), owned := true }

/-- `NewImageFromBuffer`: wraps caller memory without taking ownership. -/
def newImageFromBuffer (w h stride : Int) (buf : List Nat) : Except String Image :=
  if w < 0 ∨ h < 0 then .error "negative dimensions"
  else if stride < 0 ∨ stride > maxImageBytes ∨ stride % 4 ≠ 0 then .error "invalid stride"
  else
    let stridePixels := stride * 8
    if stridePixels < w then .error "stride smaller than width"
    else if h > 0 ∧ h > maxImagePixels / stridePixels then .error "image too large"
    else
      let required := stride * h
      if required > buf.length then .error "buffer too small"
      else .ok { width := w.toNat, height := h.toNat, stride := stride.toNat,
                 data := some (buf.take required.toNat), owned := false }

/-- `IsValidImageSize`. -/
def isValidImageSize (w h : Int) : Bool :=
  0 < w && w ≤ JBig2MaxImageSize && 0 < h && h ≤ JBig2MaxImageSize

/-- The byte stored at flat index `i` (callers guard the range). -/
def byteAt (d : List Nat) (i : Nat) : Nat := d.getD i 0

/-- `GetPixel`. -/
def getPixel (img : Image) (x y : Int) : Nat :=
  match img.data with
  | none => 0
  | some d =>
      if x < 0 ∨ x ≥ (img.width : Int) then 0
      else if y < 0 ∨ y ≥ (img.height : Int) then 0
      else
        let xn := x.toNat
        (Image.byteAt d (y.toNat * img.stride + xn / 8) >>> (7 - xn % 8)) &&& 1

/-- `SetPixel`. -/
def setPixel (img : Image) (x y : Int) (v : Nat) : Image :=
  match img.data with
  | none => img
  | some d =>
      if x < 0 ∨ x ≥ (img.width : Int) then img
      else if y < 0 ∨ y ≥ (img.height : Int) then img
      else
        let xn := x.toNat
        let i := y.toNat * img.stride + xn / 8
        let mask := 2 ^ (7 - xn % 8)
        let b := byteAt d i
        let b' := if v ≠ 0 then b ||| mask else b &&& (255 ^^^ mask)
        { img with data := some (d.set i b') }

/-- Replace the scanline `row` of the flat buffer with `newRow` (length `stride`). -/
def putRow (d : List Nat) (stride row : Nat) (newRow : List Nat) : List Nat :=
  d.take (row * stride) ++ newRow ++ d.drop (row * stride + stride)

/-- Extract the scanline `row`. -/
def getRow (d : List Nat) (stride row : Nat) : List Nat :=
  (d.drop (row * stride)).take stride

/-- `CopyLine`: clone one scanline into another, zero-filling when the source
row is out of range. -/
def copyLine (img : Image) (dstY srcY : Int) : Image :=
  match img.data with
  | none => img
  | some d =>
      if dstY < 0 ∨ dstY ≥ (img.height : Int) then img
      else if srcY < 0 ∨ srcY ≥ (img.height : Int) then
        { img with data := some (putRow d img.stride dstY.toNat (List.replicate img.stride 0)) }
      else
        { img with data := some (putRow d img.stride dstY.toNat
            (getRow d img.stride srcY.toNat)) }

/-- `Fill`. -/
def fill (img : Image) (v : Bool) : Image :=
  match img.data with
  | none => img
  | some d => { img with data := some (List.replicate d.length (if v then 0xff else 0)) }

/-- `Expand`: grow the image height.  Both the owned and the external branch
allocate a fresh buffer, copy the old contents, fill the new tail rows with
the default value, and leave the image owned.  (When `stride = 0` the Go code
would divide by zero; all call sites have a positive stride.) -/
def expand (img : Image) (h : Int) (v : Bool) : Image :=
  match img.data with
  | none => img
  | some d =>
      if h ≤ (img.height : Int) ∨ h > maxImageBytes / (img.stride : Int) then img
      else
        let currentSize := img.stride * img.height
        let desiredSize := img.stride * h.toNat
        let copied := d.take desiredSize ++ List.replicate (desiredSize - d.length) 0
        let filled := copied.take currentSize ++
          List.replicate (desiredSize - currentSize) (if v then 0xff else 0)
        { img with data := some filled, owned := true, height := h.toNat }

end Image

/-! ## Page info and striped-page growth (internal/jbig2/page.go, unnamed/part_009) -/

/-- `unboundedPageHeight` = `^uint32(0)`. -/
def unboundedPageHeight : Nat := 2 ^ 32 - 1

/-- `PageInfo`. -/
structure PageInfo where
  width : Nat
  height : Nat
  resolutionX : Nat
  resolutionY : Nat
  defaultPixelValue : Bool
  striped : Bool
  maxStripeSize : Nat
  deriving Repr, DecidableEq

/-- `ShouldTreatAsStriped`. -/
def PageInfo.shouldTreatAsStriped (p : PageInfo) : Bool :=
  p.striped || p.height == unboundedPageHeight

/-- `RegionInfo` (unnamed/part_004): signed 32-bit fields. -/
structure RegionInfo where
  width : Int
  height : Int
  x : Int
  y : Int
  flags : Nat
  deriving Repr, DecidableEq

/-- `FX_RECT` equivalent (`Rect` in part_005). -/
structure GoRect where
  left : Int
  top : Int
  right : Int
  bottom : Int
  deriving Repr, DecidableEq

def GoRect.rwidth (r : GoRect) : Int := r.right - r.left
def GoRect.rheight (r : GoRect) : Int := r.bottom - r.top

/-- The slice of `Context` state that the page-growth path reads. -/
structure PageCtx where
  page : Option Image
  bufSpecified : Bool
  pageInfos : List (Option PageInfo)
  deriving Repr, DecidableEq

/-- `latestPageInfo`: last non-nil entry. -/
def PageCtx.latestPageInfo (c : PageCtx) : Option PageInfo :=
  c.pageInfos.reverse.findSome? id

/-- `ensurePageHeight` (unnamed/part_009): grow the page image when a region
would compose beyond the current height of a striped, context-owned page.
`Expand` receives the `int32`-converted target, as in the source. -/
def PageCtx.ensurePageHeight (c : PageCtx) (target : Int) : PageCtx :=
  match c.page with
  | none => c
  | some pg =>
      if target ≤ (pg.height : Int) then c
      else if target ≤ 0 ∨ c.bufSpecified then c
      else
        match c.latestPageInfo with
        | none => c
        | some info =>
            if ¬ info.shouldTreatAsStriped then c
            else { c with page := some (pg.expand (toInt32 target) info.defaultPixelValue) }

/-- The growth-relevant prefix of `composeRegion` (unnamed/part_009): select
the source rectangle, compute the bottom edge of the destination band, and
call `ensurePageHeight`.  The subsequent `ComposeToWithRect` blend does not
change the page dimensions. -/
def PageCtx.composeRegionGrow (c : PageCtx) (ri : RegionInfo) (img : Image)
    (rect : Option GoRect) : PageCtx :=
  let full : GoRect := { left := 0, top := 0, right := (img.width : Int), bottom := (img.height : Int) }
  let r := match rect with
    | none => full
    | some r0 => if r0.rwidth ≤ 0 ∨ r0.rheight ≤ 0 then full else r0
  if r.rwidth ≤ 0 ∨ r.rheight ≤ 0 then c
  else
    let bottom := ri.y + r.bottom
    c.ensurePageHeight bottom

/-! ## Text-region glyph placement (unnamed/part_006, `TRDProc`) -/

/-- `JBig2Corner`. -/
inductive Corner where
  | bottomLeft
  | topLeft
  | bottomRight
  | topRight
  deriving Repr, DecidableEq

/-- `composeData`. -/
structure ComposeData where
  x : Int
  y : Int
  increment : Int
  deriving Repr, DecidableEq

/-- `TRDProc.getComposeData`: destination coordinates and post-compose cursor
increment for one glyph, as a function of `(transposed, refCorner)`. -/
def getComposeData (transposed : Bool) (refCorner : Corner) (si ti : Int)
    (wi hi : Nat) : ComposeData :=
  if ¬ transposed then
    match refCorner with
    | .topLeft => { x := si, y := ti, increment := (wi : Int) - 1 }
    | .topRight => { x := si - wi + 1, y := ti, increment := 0 }
    | .bottomLeft => { x := si, y := ti - hi + 1, increment := (wi : Int) - 1 }
    | .bottomRight => { x := si - wi + 1, y := ti - hi + 1, increment := 0 }
  else
    match refCorner with
    | .topLeft => { x := ti, y := si, increment := (hi : Int) - 1 }
    | .topRight => { x := ti - wi + 1, y := si, increment := (hi : Int) - 1 }
    | .bottomLeft => { x := ti, y := si - hi + 1, increment := 0 }
    | .bottomRight => { x := ti - wi + 1, y := si - hi + 1, increment := 0 }

/-- The per-glyph placement step of `decodeTextRegionArith` /
`DecodeHuffman` (identical in both): pre-compose cursor shift, compose-target
computation via `getComposeData`, and post-compose cursor advance. Returns
`(dst_x, dst_y, final cursor)`. -/
def textPlacementStep (transposed : Bool) (refCorner : Corner) (wi hi : Nat)
    (curs ti : Int) : Int × Int × Int :=
  let curs1 :=
    if ¬ transposed ∧ (refCorner = .topRight ∨ refCorner = .bottomRight) then
      curs + (wi : Int) - 1
    else if transposed ∧ (refCorner = .bottomLeft ∨ refCorner = .bottomRight) then
      curs + (hi : Int) - 1
    else curs
  let cd := getComposeData transposed refCorner curs1 ti wi hi
  let curs2 := if cd.increment ≠ 0 then curs1 + cd.increment else curs1
  (cd.x, cd.y, curs2)

/-- The claim's placement table, written from the specification text: the
pre-compose advance, the compose target for each `(transposed, corner)` pair
(in terms of the advanced cursor `s`), and the post-compose advance. -/
def textPlacementClaim (transposed : Bool) (refCorner : Corner) (wi hi : Nat)
    (curs ti : Int) : Int × Int × Int :=
  let preAdv : Int :=
    if ¬ transposed ∧ (refCorner = .topRight ∨ refCorner = .bottomRight) then (wi : Int) - 1
    else if transposed ∧ (refCorner = .bottomLeft ∨ refCorner = .bottomRight) then (hi : Int) - 1
    else 0
  let s := curs + preAdv
  let t := ti
  let target : Int × Int :=
    if ¬ transposed then
      match refCorner with
      | .topLeft => (s, t)
      | .topRight => (s - wi + 1, t)
      | .bottomLeft => (s, t - hi + 1)
      | .bottomRight => (s - wi + 1, t - hi + 1)
    else
      match refCorner with
      | .topLeft => (t, s)
      | .topRight => (t - wi + 1, s)
      | .bottomLeft => (t, s - hi + 1)
      | .bottomRight => (t - wi + 1, s - hi + 1)
  let postAdv : Int :=
    if ¬ transposed ∧ (refCorner = .topLeft ∨ refCorner = .bottomLeft) then (wi : Int) - 1
    else if transposed ∧ (refCorner = .topLeft ∨ refCorner = .topRight) then (hi : Int) - 1
    else 0
  (target.1, target.2, s + postAdv)

/-! ## IAID decoder (internal/jbig2, `ArithIaidDecoder.Decode`)

The arithmetic decoder is abstracted by the sequence of decision bits it
returns (`ArithDecoder.Decode` returns 0 or 1); `oracle k` is the bit obtained
from the `k`-th call. -/

/-- The running accumulator `prev` of `ArithIaidDecoder.Decode` after `k` of
the `len` bit reads: starts at 1, then `prev = (prev << 1) | bit`. -/
def iaidPrev (oracle : Nat → Bool) : Nat → Nat
  | 0 => 1
  | k + 1 => 2 * iaidPrev oracle k + (if oracle k then 1 else 0)

/-- `ArithIaidDecoder.Decode` result: `prev - (1 << len)` after `len` reads
(computed in `Int` to expose the claimed non-negativity). -/
def iaidDecode (len : Nat) (oracle : Nat → Bool) : Int :=
  (iaidPrev oracle len : Int) - 2 ^ len

/-! ## Symbol-dictionary export pass (internal/jbig2/pdd_proc.go, `SDDProc`)

The integer decoder is abstracted by the list of `(value, inBand)` results it
produces; an exhausted list models an arithmetic-decoder error.  Symbol
bitmaps are abstracted by an arbitrary payload type (`Option α` mirrors the
nullable `*Image`), since only their count matters here. -/

/-- The run-length loop of `decodeExportFlagsArith` (the Huffman variant is
literally the same loop): returns the flag array, the exported-true count and
the final index. -/
def exportFlagsLoop (total : Nat) :
    Nat → Bool → Nat → List Bool → List (Int × Bool) →
    Except String (List Bool × Nat × Nat)
  | index, curFlag, exported, acc, rs =>
    if index < total then
      match rs with
      | [] => .error "jbig2: arithmetic decoder exhausted"
      | (run, inBand) :: rest =>
          if ¬ inBand then .error "jbig2: unexpected OOB while decoding export run length"
          else if run < 0 then .error "jbig2: negative export run length"
          else
            let runLen := run.toNat
            if runLen > total - index then .error "jbig2: export run exceeds symbol count"
            else
              exportFlagsLoop total (index + runLen) (!curFlag)
                (exported + if curFlag then runLen else 0)
                (acc ++ List.replicate runLen curFlag) rest
    else .ok (acc, exported, index)

/-- `decodeExportFlagsArith`: run the loop, then the trailing coverage and
export-cap checks. -/
def decodeExportFlags (numEx total : Nat) (rs : List (Int × Bool)) :
    Except String (List Bool) :=
  match exportFlagsLoop total 0 false 0 [] rs with
  | .error e => .error e
  | .ok (flags, exported, index) =>
      if index ≠ total then .error "jbig2: export run lengths do not cover symbol set"
      else if exported > numEx then .error "jbig2: export symbol count exceeds declared limit"
      else .ok flags

/-- The `i`-indexed loop of `buildExportedDictionary`, iterating over the
export flags of positions `i, i+1, …` (`cloneImage` keeps `nil` images `nil`
and only duplicates pixel data, so for counting it is the identity). -/
def buildExportLoop {α : Type} (numIn numEx : Nat) (inSyms newSyms : List (Option α)) :
    Nat → Nat → List (Option α) → List Bool → Except String (List (Option α))
  | _, _, acc, [] => .ok acc
  | i, exported, acc, f :: rest =>
    if ¬ f ∨ exported ≥ numEx then
      buildExportLoop numIn numEx inSyms newSyms (i + 1) exported acc rest
    else if i < numIn then
      if inSyms.length ≤ i then .error "jbig2: missing referenced input symbol"
      else buildExportLoop numIn numEx inSyms newSyms (i + 1) (exported + 1)
        (acc ++ [inSyms.getD i none]) rest
    else
      if newSyms.length ≤ i - numIn then .error "jbig2: missing decoded symbol"
      else buildExportLoop numIn numEx inSyms newSyms (i + 1) (exported + 1)
        (acc ++ [newSyms.getD (i - numIn) none]) rest

/-- `buildExportedDictionary`: the exported dictionary is the list of images
appended by `AddImage` while walking all `numIn + numNew` export flags. -/
def buildExportedDictionary {α : Type} (numIn numNew numEx : Nat)
    (inSyms newSyms : List (Option α)) (flags : List Bool) :
    Except String (List (Option α)) :=
  let total := numIn + numNew
  if flags.length < total then .error "jbig2: insufficient export flags"
  else buildExportLoop numIn numEx inSyms newSyms 0 0 [] (flags.take total)

/-! ## Huffman tables (internal/jbig2/huffman_table.go) -/

/-- `int32Max`. -/
def int32Max : Int := 2 ^ 31 - 1

/-- A table entry as the Go code stores it: the canonical code slot
(`HuffmanCode`: code length and assigned code) plus the value range. -/
structure HuffEntry where
  codeLength : Int
  code : Int
  rangeLen : Int
  rangeLow : Int
  deriving Repr, DecidableEq

/-- `lencounts` with `lencounts[0] = 0`: the number of entries of length `i`. -/
def lenCount (lens : List Int) (i : Int) : Nat :=
  if i = 0 then 0 else lens.count i

/-- The inner assignment pass of `assignHuffmanCodes` for one code length `i`:
walk the table in order, give each entry of length `i` the next code value
`cur`, error when `cur` leaves the int32 range. -/
def assignLengthPass (i : Int) :
    Int → List (Int × Int) → Except String (List (Int × Int))
  | _, [] => .ok []
  | cur, (len, code) :: rest =>
      if len = i then
        if cur > int32Max then .error "jbig2: Huffman code exceeds int32"
        else
          match assignLengthPass i (cur + 1) rest with
          | .error e => .error e
          | .ok r => .ok ((len, cur) :: r)
      else
        match assignLengthPass i cur rest with
        | .error e => .error e
        | .ok r => .ok ((len, code) :: r)

/-- The outer loop of `assignHuffmanCodes` over code lengths `i = 1..maxLen`,
carrying `firstcodes[i-1]` in `fPrev`. -/
def assignOuter (lens : List Int) :
    Nat → Int → Int → List (Int × Int) → Except String (List (Int × Int))
  | 0, _, _, codes => .ok codes
  | fuel + 1, i, fPrev, codes =>
      let shifted := (fPrev + (lenCount lens (i - 1) : Int)) * 2
      if shifted > int32Max ∨ shifted < 0 then .error "jbig2: Huffman code value overflow"
      else
        match assignLengthPass i shifted codes with
        | .error e => .error e
        | .ok codes' => assignOuter lens fuel (i + 1) shifted codes'

/-- `assignHuffmanCodes`: canonical code assignment over the entry lengths.
Input and output are `(codeLength, code)` pairs; codes start out 0. -/
def assignHuffmanCodes (lens : List Int) : Except String (List (Int × Int)) :=
  let maxLen := lens.foldl (fun m c => if c > m then c else m) 0
  if maxLen = 0 then .ok (lens.map fun l => (l, 0))
  else if lens.any (fun l => l < 0 ∨ maxLen + 1 ≤ l) then
    .error "jbig2: invalid Huffman code length"
  else assignOuter lens maxLen.toNat 1 0 (lens.map fun l => (l, 0))

/-- `HuffmanTable` as produced by the constructors: `hasOOB`, plus per-entry
`(codeLength, code, rangeLen, rangeLow)`. -/
structure HuffmanTable where
  hasOOB : Bool
  entries : List HuffEntry
  deriving Repr, DecidableEq

/-- Attach assigned codes back to the entries. -/
def attachCodes (entries : List HuffEntry) (codes : List (Int × Int)) : List HuffEntry :=
  entries.zipWith (fun e c => { e with code := c.2 }) codes

/-- The row-reading loop of `NewHuffmanTableFromStream` (Annex B.3): read
`(codeLen, rangeLen)` pairs and advance `curLow` until it reaches `high`.
`fuel` bounds the recursion; each iteration consumes input bits, so the fuel
`lengthInBits + 1` used by the constructor can never be exhausted first. -/
def huffRowsLoop (htps htrs : Nat) (upper : Int) :
    Nat → Int → BitStream → List HuffEntry → Option (List HuffEntry × BitStream)
  | 0, _, _, _ => none
  | fuel + 1, curLow, bs, acc =>
      match bs.readNBits htps with
      | none => none
      | some (codeLen, bs1) =>
          match bs1.readNBits htrs with
          | none => none
          | some (rangeLen, bs2) =>
              if rangeLen ≥ 32 then none
              else
                let acc' := acc ++ [(⟨(codeLen : Int), 0, (rangeLen : Int), curLow⟩ : HuffEntry)]
                let curLow' := curLow + 2 ^ rangeLen
                if curLow' < -(2 ^ 31) ∨ curLow' > int32Max then none
                else if curLow' ≥ upper then some (acc', bs2)
                else huffRowsLoop htps htrs upper fuel curLow' bs2 acc'

/-- `NewHuffmanTableFromStream`: flag byte, bounds, value rows, the two
out-of-range rows, the optional OOB row, then canonical code assignment. -/
def newHuffmanTableFromStream (bs : BitStream) : Option (HuffmanTable × BitStream) :=
  match bs.readByte with
  | none => none
  | some (flag, bs1) =>
      let hasOOB := flag &&& 0x01 ≠ 0
      let htps := ((flag >>> 1) &&& 0x07) + 1
      let htrs := ((flag >>> 4) &&& 0x07) + 1
      match bs1.readUint32 with
      | none => none
      | some (lowVal, bs2) =>
          match bs2.readUint32 with
          | none => none
          | some (highVal, bs3) =>
              let low := toInt32 (lowVal : Int)
              let high := toInt32 (highVal : Int)
              if low > high then none
              else
                match huffRowsLoop htps htrs high (bs3.lengthInBits + 1) low bs3 [] with
                | none => none
                | some (rows, bs4) =>
                    match bs4.readNBits htps with
                    | none => none
                    | some (codeLenA, bs5) =>
                        if low = -(2 ^ 31) then none
                        else
                          let rows1 := rows ++ [(⟨(codeLenA : Int), 0, 32, low - 1⟩ : HuffEntry)]
                          match bs5.readNBits htps with
                          | none => none
                          | some (codeLenB, bs6) =>
                              let rows2 := rows1 ++ [(⟨(codeLenB : Int), 0, 32, high⟩ : HuffEntry)]
                              match (if hasOOB then
                                  match bs6.readNBits htps with
                                  | none => none
                                  | some (codeLenC, bs7) =>
                                      some (rows2 ++ [(⟨(codeLenC : Int), 0, 0, 0⟩ : HuffEntry)], bs7)
                                else some (rows2, bs6)) with
                              | none => none
                              | some (rows3, bs8) =>
                                  match assignHuffmanCodes (rows3.map (·.codeLength)) with
                                  | .error _ => none
                                  | .ok codes =>
                                      some (⟨hasOOB, attachCodes rows3 codes⟩, bs8)

/-- One `tableLine` of the built-in standard tables: `(preflen, rangeLen, rangeLow)`. -/
structure TableLine where
  preflen : Nat
  rangeLen : Nat
  rangeLow : Int
  deriving Repr, DecidableEq

def tl (p r : Nat) (lo : Int) : TableLine := ⟨p, r, lo⟩

def tableLine1 : List TableLine := [tl 1 4 0, tl 2 8 16, tl 3 16 272, tl 0 32 (-1), tl 3 32 65808]
def tableLine2 : List TableLine :=
  [tl 1 0 0, tl 2 0 1, tl 3 0 2, tl 4 3 3, tl 5 6 11, tl 0 32 (-1), tl 6 32 75, tl 6 0 0]
def tableLine3 : List TableLine :=
  [tl 8 8 (-256), tl 1 0 0, tl 2 0 1, tl 3 0 2, tl 4 3 3, tl 5 6 11, tl 8 32 (-257),
   tl 7 32 75, tl 6 0 0]
def tableLine4 : List TableLine :=
  [tl 1 0 1, tl 2 0 2, tl 3 0 3, tl 4 3 4, tl 5 6 12, tl 0 32 (-1), tl 5 32 76]
def tableLine5 : List TableLine :=
  [tl 7 8 (-255), tl 1 0 1, tl 2 0 2, tl 3 0 3, tl 4 3 4, tl 5 6 12, tl 7 32 (-256), tl 6 32 76]
def tableLine6 : List TableLine :=
  [tl 5 10 (-2048), tl 4 9 (-1024), tl 4 8 (-512), tl 4 7 (-256), tl 5 6 (-128), tl 5 5 (-64),
   tl 4 5 (-32), tl 2 7 0, tl 3 7 128, tl 3 8 256, tl 4 9 512, tl 4 10 1024,
   tl 6 32 (-2049), tl 6 32 2048]
def tableLine7 : List TableLine :=
  [tl 4 9 (-1024), tl 3 8 (-512), tl 4 7 (-256), tl 5 6 (-128), tl 5 5 (-64), tl 4 5 (-32),
   tl 4 5 0, tl 5 5 32, tl 5 6 64, tl 4 7 128, tl 3 8 256, tl 3 9 512, tl 3 10 1024,
   tl 5 32 (-1025), tl 5 32 2048]
def tableLine8 : List TableLine :=
  [tl 8 3 (-15), tl 9 1 (-7), tl 8 1 (-5), tl 9 0 (-3), tl 7 0 (-2), tl 4 0 (-1), tl 2 1 0,
   tl 5 0 2, tl 6 0 3, tl 3 4 4, tl 6 1 20, tl 4 4 22, tl 4 5 38, tl 5 6 70, tl 5 7 134,
   tl 6 7 262, tl 7 8 390, tl 6 10 646, tl 9 32 (-16), tl 9 32 1670, tl 2 0 0]
def tableLine9 : List TableLine :=
  [tl 8 4 (-31), tl 9 2 (-15), tl 8 2 (-11), tl 9 1 (-7), tl 7 1 (-5), tl 4 1 (-3),
   tl 3 1 (-1), tl 3 1 1, tl 5 1 3, tl 6 1 5, tl 3 5 7, tl 6 2 39, tl 4 5 43, tl 4 6 75,
   tl 5 7 139, tl 5 8 267, tl 6 8 523, tl 7 9 779, tl 6 11 1291, tl 9 32 (-32),
   tl 9 32 3339, tl 2 0 0]
def tableLine10 : List TableLine :=
  [tl 7 4 (-21), tl 8 0 (-5), tl 7 0 (-4), tl 5 0 (-3), tl 2 2 (-2), tl 5 0 2, tl 6 0 3,
   tl 7 0 4, tl 8 0 5, tl 2 6 6, tl 5 5 70, tl 6 5 102, tl 6 6 134, tl 6 7 198, tl 6 8 326,
   tl 6 9 582, tl 6 10 1094, tl 7 11 2118, tl 8 32 (-22), tl 8 32 4166, tl 2 0 0]
def tableLine11 : List TableLine :=
  [tl 1 0 1, tl 2 1 2, tl 4 0 4, tl 4 1 5, tl 5 1 7, tl 5 2 9, tl 6 2 13, tl 7 2 17,
   tl 7 3 21, tl 7 4 29, tl 7 5 45, tl 7 6 77, tl 0 32 0, tl 7 32 141]
def tableLine12 : List TableLine :=
  [tl 1 0 1, tl 2 0 2, tl 3 1 3, tl 5 0 5, tl 5 1 6, tl 6 1 8, tl 7 0 10, tl 7 1 11,
   tl 7 2 13, tl 7 3 17, tl 7 4 25, tl 8 5 41, tl 0 32 0, tl 8 32 73]
def tableLine13 : List TableLine :=
  [tl 1 0 1, tl 3 0 2, tl 4 0 3, tl 5 0 4, tl 4 1 5, tl 3 3 7, tl 6 1 15, tl 6 2 17,
   tl 6 3 21, tl 6 4 29, tl 6 5 45, tl 7 6 77, tl 0 32 0, tl 7 32 141]
def tableLine14 : List TableLine :=
  [tl 3 0 (-2), tl 3 0 (-1), tl 1 0 0, tl 3 0 1, tl 3 0 2, tl 0 32 (-3), tl 0 32 3]
def tableLine15 : List TableLine :=
  [tl 7 4 (-24), tl 6 2 (-8), tl 5 1 (-4), tl 4 0 (-2), tl 3 0 (-1), tl 1 0 0, tl 3 0 1,
   tl 4 0 2, tl 5 1 3, tl 6 2 5, tl 7 4 9, tl 7 32 (-25), tl 7 32 25]

/-- `builtinHuffmanTables` (index 0 unused). -/
def builtinHuffmanTables : List (Bool × List TableLine) :=
  [(false, []),
   (false, tableLine1), (true, tableLine2), (true, tableLine3), (false, tableLine4),
   (false, tableLine5), (false, tableLine6), (false, tableLine7), (true, tableLine8),
   (true, tableLine9), (true, tableLine10), (false, tableLine11), (false, tableLine12),
   (false, tableLine13), (false, tableLine14), (false, tableLine15)]

/-- `NewStandardHuffmanTable`. -/
def newStandardHuffmanTable (idx : Nat) : Option HuffmanTable :=
  if idx = 0 ∨ idx ≥ builtinHuffmanTables.length then none
  else
    let (htoob, lines) := builtinHuffmanTables.getD idx (false, [])
    let entries := lines.map fun l =>
      { codeLength := (l.preflen : Int), code := 0, rangeLen := (l.rangeLen : Int),
        rangeLow := l.rangeLow : HuffEntry }
    match assignHuffmanCodes (entries.map (·.codeLength)) with
    | .error _ => none
    | .ok codes => some { hasOOB := htoob, entries := attachCodes entries codes }

/-- The Kraft sum `Σ 2^-L` over the assigned (nonzero) code lengths, as the
claim states it. -/
def kraftSum (lens : List Int) : ℚ :=
  (lens.filter (fun l => 0 < l)).foldr (fun l acc => acc + (1 / 2 : ℚ) ^ l.toNat) 0

/-! ## Segment headers and the unknown-length advance (unnamed/part_009) -/

/-- `JBig2MaxReferredSegmentCount`. -/
def JBig2MaxReferredSegmentCount : Nat := 64

/-- The segment-header fields parsed by `parseSegmentHeader`. -/
structure SegmentHeader where
  number : Nat
  flags : Nat
  referred : List Nat
  pageAssociation : Nat
  dataLength : Nat
  deriving Repr, DecidableEq

/-- The 6-bit segment type of a flag byte. -/
def segType (flags : Nat) : Nat := flags &&& 0x3f

/-- `segmentTypeEndOfPage`. -/
def segmentTypeEndOfPage : Nat := 49

/-- `readReferredSegmentCount`. -/
def readReferredSegmentCount (bs : BitStream) : Option (Nat × BitStream) :=
  let cur := bs.curByte
  if cur >>> 5 = 7 then
    match bs.readUint32 with
    | none => none
    | some (val, bs') =>
        let count := val &&& 0x1fffffff
        if count > JBig2MaxReferredSegmentCount then none else some (count, bs')
  else
    match bs.readByte with
    | none => none
    | some (_, bs') => some (cur >>> 5, bs')

/-- `segmentNumberSize`. -/
def segmentNumberSize (number : Nat) : Nat :=
  if number > 65536 then 4 else if number > 256 then 2 else 1

/-- The loop reading `count` referred-segment numbers of `sizeBytes` bytes
each; every number must be strictly below the current segment number. -/
def readReferredNumbers (number sizeBytes : Nat) :
    Nat → BitStream → List Nat → Option (List Nat × BitStream)
  | 0, bs, acc => some (acc, bs)
  | count + 1, bs, acc =>
      let step : Option (Nat × BitStream) :=
        match sizeBytes with
        | 1 => bs.readByte
        | 2 => bs.readUint16
        | _ => bs.readUint32
      match step with
      | none => none
      | some (ref, bs') =>
          if ref ≥ number then none
          else readReferredNumbers number sizeBytes count bs' (acc ++ [ref])

/-- `parseSegmentHeader`. -/
def parseSegmentHeader (bs : BitStream) : Option (SegmentHeader × BitStream) :=
  match bs.readUint32 with
  | none => none
  | some (number, bs1) =>
      match bs1.readByte with
      | none => none
      | some (flags, bs2) =>
          match readReferredSegmentCount bs2 with
          | none => none
          | some (count, bs3) =>
              match readReferredNumbers number (segmentNumberSize number) count bs3 [] with
              | none => none
              | some (refs, bs4) =>
                  match (if flags &&& 0x40 ≠ 0 then bs4.readUint32 else bs4.readByte) with
                  | none => none
                  | some (page, bs5) =>
                      match bs5.readUint32 with
                      | none => none
                      | some (length, bs6) =>
                          some ((⟨number, flags, refs, page, length⟩ : SegmentHeader), bs6)

/-- The post-payload advance of `DecodeSequential` (unnamed/part_009,
lines 172–181): for a known length the stream is repositioned to
`offset + dataLength`; for the unknown-length sentinel `0xFFFFFFFF` the stream
is advanced exactly 4 bytes from wherever the payload parse left it.  `offset`
is the header-end offset recorded before the payload parse. -/
def advanceAfterSegment (offset : Nat) (bs : BitStream) (dataLength : Nat) :
    Option BitStream :=
  if dataLength ≠ 0xffffffff then
    if dataLength > 2 ^ 32 - 1 - offset then none
    else some (bs.setOffset (offset + dataLength))
  else some (bs.addOffset 4)

/-- Whether a well-formed segment header starting at byte `p` of `buf` parses
successfully and has the end-of-page type.  This is the "end-of-page marker"
notion of the dispatcher (`segmentTypeEndOfPage` in `parseSegmentData`). -/
def isEndOfPageHeaderAt (buf : List Nat) (p : Nat) : Bool :=
  match parseSegmentHeader { buf := buf, byteIx := p, bitIx := 0 } with
  | none => false
  | some (seg, _) => segType seg.flags == segmentTypeEndOfPage

/-! ## Generic region decoding (unnamed/part_008, `GRDProc`)

The MQ arithmetic decoder together with the shared context array is modelled
as a deterministic oracle over an abstract state type: `decode s idx` is
`ArithDecoder.Decode(&contexts[idx])` (`none` on its error paths, the bit and
the successor state otherwise), `isComplete` is `ArithDecoder.IsComplete`.
Both decode paths drive the *same* oracle, which is exactly the sharing of
"the same input stream and context array" in the claim. -/

/-- Oracle abstraction of `(ArithDecoder, []ArithContext)`. -/
structure ArithOracle (σ : Type) where
  isComplete : σ → Bool
  decode : σ → Nat → Option (Bool × σ)

/-- `GRDProc` parameters (progressive fields omitted: the claim compares the
non-progressive entry points). -/
structure GRDProc where
  tpgdon : Bool
  useSkip : Bool
  gbTemplate : Nat
  gbWidth : Nat
  gbHeight : Nat
  skip : Option Image
  gbAt : List Int

/-- `GBAt[i]`. -/
def GRDProc.at (p : GRDProc) (i : Nat) : Int := p.gbAt.getD i 0

def optConstant1 (t : Nat) : Nat := [0x9b25, 0x0795, 0x00e5].getD t 0
def optConstant2 (t : Nat) : Nat := [0x0006, 0x0004, 0x0001].getD t 0
def optConstant3 (t : Nat) : Nat := [0xf800, 0x1e00, 0x0380].getD t 0
def optConstant4 (t : Nat) : Nat := [0x0000, 0x0001, 0x0003].getD t 0
def optConstant5 (t : Nat) : Nat := [0x07f0, 0x01f8, 0x007c].getD t 0
def optConstant6 (t : Nat) : Nat := [0x7bf7, 0x0efb, 0x01bd].getD t 0
def optConstant7 (t : Nat) : Nat := [0x0800, 0x0200, 0x0080].getD t 0
def optConstant8 (t : Nat) : Nat := [0x0010, 0x0008, 0x0004].getD t 0
def optConstant9 (t : Nat) : Nat := [0x000c, 0x0009, 0x0007].getD t 0
def optConstant10 (t : Nat) : Nat := [0x0007, 0x000f, 0x0007].getD t 0
def optConstant11 (t : Nat) : Nat := [0x001f, 0x001f, 0x000f].getD t 0
def optConstant12 (t : Nat) : Nat := [0x000f, 0x0007, 0x0003].getD t 0

/-- `useOptimisedTemplate`. -/
def GRDProc.useOptimisedTemplate (p : GRDProc) (template : Nat) : Bool :=
  match template with
  | 0 => p.gbAt = [3, -1, -3, -1, 2, -2, -2, -2] && !p.useSkip
  | 1 => p.at 0 == 3 && p.at 1 == -1 && !p.useSkip
  | 2 => p.at 0 == 2 && p.at 1 == -1 && !p.useSkip
  | _ => false

/-- `useOptimisedTemplate3`. -/
def GRDProc.useOptimisedTemplate3 (p : GRDProc) : Bool :=
  p.at 0 == 2 && p.at 1 == -1 && !p.useSkip

variable {σ : Type}

/-- The `IsComplete`-guarded, bounds-checked context decode both paths perform
(`if decoder.IsComplete() … if int(ctxVal) >= len(contexts) … decoder.Decode`;
the two pure checks commute, so one helper covers the call sites that order
them differently). -/
def guardedDecode (O : ArithOracle σ) (nctx : Nat) (s : σ) (idx : Nat) :
    Option (Bool × σ) :=
  if O.isComplete s then none
  else if nctx ≤ idx then none
  else O.decode s idx

/-- The skip-pixel test `useSkip && skipImage.GetPixel(w, h) != 0`. -/
def GRDProc.skipAt (p : GRDProc) (w h : Nat) : Bool :=
  p.useSkip && p.skip.isSome &&
    (match p.skip with
     | some sk => sk.getPixel (w : Int) (h : Int) ≠ 0
     | none => false)

/-- Pixel loop of `decodeArithTemplateUnopt` for templates 0–2: per-pixel
context assembly from the sliding registers `line1/line2/line3` plus the
adaptive pixels.  Recursion is over the remaining pixel count `n`;
`w = gbWidth - n`. -/
def unoptPixelLoop (O : ArithOracle σ) (p : GRDProc) (nctx unopt h : Nat) :
    Nat → Nat → Image → Nat → Nat → Nat → σ → Option (Image × σ)
  | 0, _, img, _, _, _, s => some (img, s)
  | n + 1, w, img, line1, line2, line3, s =>
      let mod2 := unopt % 2
      let div2 := unopt / 2
      let shift := 4 - unopt
      let decoded : Option (Nat × Image × σ) :=
        if p.skipAt w h then some (0, img, s)
        else
          let ctxVal := line3 |||
            (img.getPixel ((w : Int) + p.at 0) ((h : Int) + p.at 1)) <<< shift |||
            line2 <<< (shift + 1) ||| line1 <<< optConstant9 unopt
          let ctxVal := if unopt = 0 then
              ctxVal ||| (img.getPixel ((w : Int) + p.at 2) ((h : Int) + p.at 3)) <<< 10 |||
                (img.getPixel ((w : Int) + p.at 4) ((h : Int) + p.at 5)) <<< 11 |||
                (img.getPixel ((w : Int) + p.at 6) ((h : Int) + p.at 7)) <<< 15
            else ctxVal
          match guardedDecode O nctx s ctxVal with
          | none => none
          | some (b, s') => some (cond b 1 0, img, s')
      match decoded with
      | none => none
      | some (bVal, img, s') =>
          let img' := if bVal ≠ 0 then img.setPixel (w : Int) (h : Int) bVal else img
          let line1' := ((line1 <<< 1) |||
            img'.getPixel ((w : Int) + 2 + mod2) ((h : Int) - 2)) &&& optConstant10 unopt
          let line2' := ((line2 <<< 1) |||
            img'.getPixel ((w : Int) + 3 - div2) ((h : Int) - 1)) &&& optConstant11 unopt
          let line3' := ((line3 <<< 1) ||| bVal) &&& optConstant12 unopt
          unoptPixelLoop O p nctx unopt h n (w + 1) img' line1' line2' line3' s'

/-- Row loop of `decodeArithTemplateUnopt`: typical-prediction bit, `ltp` row
copy, or the register-seeded pixel loop. -/
def unoptRowLoop (O : ArithOracle σ) (p : GRDProc) (nctx unopt : Nat) :
    Nat → Nat → Image → Nat → σ → Option (Image × σ)
  | 0, _, img, _, s => some (img, s)
  | n + 1, h, img, ltp, s =>
      let tp : Option (Nat × σ) :=
        if p.tpgdon then
          match guardedDecode O nctx s (optConstant1 unopt) with
          | none => none
          | some (b, s') => some (ltp ^^^ cond b 1 0, s')
        else some (ltp, s)
      match tp with
      | none => none
      | some (ltp', s') =>
          if ltp' ≠ 0 then
            unoptRowLoop O p nctx unopt n (h + 1)
              (img.copyLine (h : Int) ((h : Int) - 1)) ltp' s'
          else
            let mod2 := unopt % 2
            let div2 := unopt / 2
            let line1 := img.getPixel ((1 : Int) + mod2) ((h : Int) - 2) |||
              (img.getPixel (mod2 : Int) ((h : Int) - 2)) <<< 1 |||
              (if unopt = 1 then (img.getPixel 0 ((h : Int) - 2)) <<< 2 else 0)
            let line2 := img.getPixel ((2 : Int) - div2) ((h : Int) - 1) |||
              (img.getPixel ((1 : Int) - div2) ((h : Int) - 1)) <<< 1 |||
              (if unopt < 2 then (img.getPixel 0 ((h : Int) - 1)) <<< 2 else 0)
            match unoptPixelLoop O p nctx unopt h p.gbWidth 0 img line1 line2 0 s' with
            | none => none
            | some (img', s'') => unoptRowLoop O p nctx unopt n (h + 1) img' ltp' s''

/-- `decodeArithTemplateUnopt` (templates 0–2, per-pixel reference path). -/
def decodeArithTemplateUnopt (O : ArithOracle σ) (p : GRDProc) (nctx : Nat)
    (s : σ) (unopt : Nat) : Option (Image × σ) :=
  let img := Image.newImage (p.gbWidth : Int) (p.gbHeight : Int)
  match img.data with
  | none => none
  | some _ => unoptRowLoop O p nctx unopt p.gbHeight 0 (img.fill false) 0 s

/-- Pixel loop of `decodeArithTemplate3Unopt`. -/
def unopt3PixelLoop (O : ArithOracle σ) (p : GRDProc) (nctx h : Nat) :
    Nat → Nat → Image → Nat → Nat → σ → Option (Image × σ)
  | 0, _, img, _, _, s => some (img, s)
  | n + 1, w, img, line1, line2, s =>
      let decoded : Option (Nat × Image × σ) :=
        if p.skipAt w h then some (0, img, s)
        else
          let ctxVal := line2 |||
            (img.getPixel ((w : Int) + p.at 0) ((h : Int) + p.at 1)) <<< 4 ||| line1 <<< 5
          match guardedDecode O nctx s ctxVal with
          | none => none
          | some (b, s') => some (cond b 1 0, img, s')
      match decoded with
      | none => none
      | some (bVal, img, s') =>
          let img' := if bVal ≠ 0 then img.setPixel (w : Int) (h : Int) bVal else img
          let line1' := ((line1 <<< 1) ||| img'.getPixel ((w : Int) + 2) ((h : Int) - 1)) &&& 0x1f
          let line2' := ((line2 <<< 1) ||| bVal) &&& 0x0f
          unopt3PixelLoop O p nctx h n (w + 1) img' line1' line2' s'

/-- Row loop of `decodeArithTemplate3Unopt`. -/
def unopt3RowLoop (O : ArithOracle σ) (p : GRDProc) (nctx : Nat) :
    Nat → Nat → Image → Nat → σ → Option (Image × σ)
  | 0, _, img, _, s => some (img, s)
  | n + 1, h, img, ltp, s =>
      let tp : Option (Nat × σ) :=
        if p.tpgdon then
          match guardedDecode O nctx s 0x0195 with
          | none => none
          | some (b, s') => some (ltp ^^^ cond b 1 0, s')
        else some (ltp, s)
      match tp with
      | none => none
      | some (ltp', s') =>
          if ltp' ≠ 0 then
            unopt3RowLoop O p nctx n (h + 1) (img.copyLine (h : Int) ((h : Int) - 1)) ltp' s'
          else
            let line1 := img.getPixel 1 ((h : Int) - 1) |||
              (img.getPixel 0 ((h : Int) - 1)) <<< 1
            match unopt3PixelLoop O p nctx h p.gbWidth 0 img line1 0 s' with
            | none => none
            | some (img', s'') => unopt3RowLoop O p nctx n (h + 1) img' ltp' s''

/-- `decodeArithTemplate3Unopt`. -/
def decodeArithTemplate3Unopt (O : ArithOracle σ) (p : GRDProc) (nctx : Nat)
    (s : σ) : Option (Image × σ) :=
  let img := Image.newImage (p.gbWidth : Int) (p.gbHeight : Int)
  match img.data with
  | none => none
  | some _ => unopt3RowLoop O p nctx p.gbHeight 0 (img.fill false) 0 s

/-! ### Optimized byte-at-a-time paths -/

/-- `copy(current[:n], line[src:src+n])`: overwrite `n` bytes at `dst` with
the bytes at `src` (the regions never overlap at the call sites). -/
def copyBytes (d : List Nat) (dst src n : Nat) : List Nat :=
  (List.range n).foldl (fun acc k => acc.set (dst + k) (Image.byteAt d (src + k))) d

/-- Inner bit loop (full bytes) of `decodeOptLoops`, templates 0–2, rows
`h > 1`: `k` runs 7,…,0; remaining count is `k + 1`.  Returns the assembled
output byte, the final context value and oracle state. -/
def optBitsHead (O : ArithOracle σ) (nctx t : Nat) (l1 l2 : Nat) :
    Nat → Nat → Nat → σ → Option (Nat × Nat × σ)
  | 0, ctx, cVal, s => some (cVal, ctx, s)
  | m + 1, ctx, cVal, s =>
      let k := m
      match guardedDecode O nctx s ctx with
      | none => none
      | some (b, s') =>
          let v := cond b 1 0
          let cVal' := cVal ||| (v <<< k)
          let ctx' := ((ctx &&& optConstant6 t) <<< 1) ||| v |||
            ((l1 >>> k) &&& optConstant7 t) ||| ((l2 >>> (k + optConstant4 t)) &&& optConstant8 t)
          optBitsHead O nctx t l1 l2 m ctx' cVal' s'

/-- Trailing bit loop of `decodeOptLoops` for the final partial byte:
`k` runs 0,…,bitsLeft−1. -/
def optBitsTail (O : ArithOracle σ) (nctx t : Nat) (l1 l2 : Nat) :
    Nat → Nat → Nat → Nat → σ → Option (Nat × Nat × σ)
  | 0, _, ctx, cVal, s => some (cVal, ctx, s)
  | m + 1, k, ctx, cVal, s =>
      match guardedDecode O nctx s ctx with
      | none => none
      | some (b, s') =>
          let v := cond b 1 0
          let cVal' := cVal ||| (v <<< (7 - k))
          let ctx' := ((ctx &&& optConstant6 t) <<< 1) ||| v |||
            ((l1 >>> (7 - k)) &&& optConstant7 t) |||
            ((l2 >>> (7 + optConstant4 t - k)) &&& optConstant8 t)
          optBitsTail O nctx t l1 l2 m (k + 1) ctx' cVal' s'

/-- Byte loop of `decodeOptLoops` for rows `h > 1` (two previous lines
feeding `l1`/`l2`): `cc` runs 0,…,lastByte−1. -/
def optByteLoopA (O : ArithOracle σ) (nctx t line1off line2off offset : Nat) :
    Nat → Nat → List Nat → Nat → Nat → Nat → σ → Option (List Nat × Nat × Nat × Nat × σ)
  | 0, _, d, l1, l2, ctx, s => some (d, l1, l2, ctx, s)
  | m + 1, cc, d, l1, l2, ctx, s =>
      let l1' := ((l1 <<< 8) ||| (Image.byteAt d (line1off + cc + 1) <<< optConstant2 t)) % 2 ^ 32
      let l2' := ((l2 <<< 8) ||| Image.byteAt d (line2off + cc + 1)) % 2 ^ 32
      match optBitsHead O nctx t l1' l2' 8 ctx 0 s with
      | none => none
      | some (cVal, ctx', s') =>
          optByteLoopA O nctx t line1off line2off offset m (cc + 1)
            (d.set (offset + cc) cVal) l1' l2' ctx' s'

/-- Byte loop of `decodeOptLoops` for rows `h ≤ 1` (`l2` only fed on odd
rows, no `l1` term — it stays 0). -/
def optByteLoopB (O : ArithOracle σ) (nctx t line2off offset : Nat) (odd : Bool) :
    Nat → Nat → List Nat → Nat → Nat → σ → Option (List Nat × Nat × Nat × σ)
  | 0, _, d, l2, ctx, s => some (d, l2, ctx, s)
  | m + 1, cc, d, l2, ctx, s =>
      let l2' := if odd then ((l2 <<< 8) ||| Image.byteAt d (line2off + cc + 1)) % 2 ^ 32 else l2
      match optBitsHead O nctx t 0 l2' 8 ctx 0 s with
      | none => none
      | some (cVal, ctx', s') =>
          optByteLoopB O nctx t line2off offset odd m (cc + 1)
            (d.set (offset + cc) cVal) l2' ctx' s'

/-- One row of `decodeOptLoops` (everything below the `ltp` handling): head
byte loop, then the trailing partial byte. -/
def optRowBody (O : ArithOracle σ) (nctx t stride lastByte bitsLeft h : Nat)
    (d : List Nat) (s : σ) : Option (List Nat × σ) :=
  let offset := h * stride
  if 1 < h then
    let line1off := offset - (stride <<< 1)
    let line2off := offset - stride
    let l1 := (Image.byteAt d line1off) <<< optConstant2 t
    let l2 := Image.byteAt d line2off
    let ctx := (l1 &&& optConstant3 t) ||| ((l2 >>> optConstant4 t) &&& optConstant5 t)
    match optByteLoopA O nctx t line1off line2off offset lastByte 0 d l1 l2 ctx s with
    | none => none
    | some (d1, l1', l2', ctx', s') =>
        let l1t := (l1' <<< 8) % 2 ^ 32
        let l2t := (l2' <<< 8) % 2 ^ 32
        match optBitsTail O nctx t l1t l2t bitsLeft 0 ctx' 0 s' with
        | none => none
        | some (cVal, _, s'') => some (d1.set (offset + lastByte) cVal, s'')
  else
    let line2off := offset - stride
    let odd := h % 2 = 1
    let l2 := if odd then Image.byteAt d line2off else 0
    let ctx := (l2 >>> optConstant4 t) &&& optConstant5 t
    match optByteLoopB O nctx t line2off offset odd lastByte 0 d l2 ctx s with
    | none => none
    | some (d1, l2', ctx', s') =>
        let l2t := (l2' <<< 8) % 2 ^ 32
        match optBitsTail O nctx t 0 l2t bitsLeft 0 ctx' 0 s' with
        | none => none
        | some (cVal, _, s'') => some (d1.set (offset + lastByte) cVal, s'')

/-- Row loop of `decodeOptLoops`: typical-prediction bit, `ltp` byte-copy of
the previous row, or `optRowBody`. -/
def optRowLoop (O : ArithOracle σ) (p : GRDProc) (nctx t stride lineBytes lastByte bitsLeft : Nat) :
    Nat → Nat → List Nat → Nat → σ → Option (List Nat × σ)
  | 0, _, d, _, s => some (d, s)
  | n + 1, h, d, ltp, s =>
      let tp : Option (Nat × σ) :=
        if p.tpgdon then
          match guardedDecode O nctx s (optConstant1 t) with
          | none => none
          | some (b, s') => some (ltp ^^^ cond b 1 0, s')
        else some (ltp, s)
      match tp with
      | none => none
      | some (ltp', s') =>
          let offset := h * stride
          if ltp' ≠ 0 then
            let d' := if 0 < h then copyBytes d offset (offset - stride) lineBytes else d
            optRowLoop O p nctx t stride lineBytes lastByte bitsLeft n (h + 1) d' ltp' s'
          else
            match optRowBody O nctx t stride lastByte bitsLeft h d s' with
            | none => none
            | some (d', s'') =>
                optRowLoop O p nctx t stride lineBytes lastByte bitsLeft n (h + 1) d' ltp' s''

/-- `decodeArithOpt3` (the `decodeOptLoops` driver for templates 0–2):
allocate, compute the line geometry, adjust the height for template 0 exactly
as the source does, run the row loop over the raw pixel bytes. -/
def decodeArithOpt3 (O : ArithOracle σ) (p : GRDProc) (nctx : Nat) (s : σ)
    (t : Nat) : Option (Image × σ) :=
  let img := Image.newImage (p.gbWidth : Int) (p.gbHeight : Int)
  match img.data with
  | none => none
  | some d =>
      let stride := img.stride
      let lineBytes0 := (p.gbWidth + 7) >>> 3
      let lineBytes := if lineBytes0 = 0 then 1 else lineBytes0
      let lastByte := lineBytes - 1
      let bitsLeft := p.gbWidth - lastByte * 8
      let height := if t = 0 then
          (let h0 := p.gbHeight &&& 0x7fffffff
           if h0 > p.gbHeight then p.gbHeight else h0)
        else p.gbHeight
      match optRowLoop O p nctx t stride lineBytes lastByte bitsLeft height 0 d 0 s with
      | none => none
      | some (d', s') => some ({ img with data := some d' }, s')

/-- Inner bit loop (full bytes) of `decodeArithTemplate3Opt`; the `h = 0` row
omits the previous-line term (`useLine = false`). -/
def opt3BitsHead (O : ArithOracle σ) (nctx : Nat) (line1 : Nat) (useLine : Bool) :
    Nat → Nat → Nat → σ → Option (Nat × Nat × σ)
  | 0, ctx, cVal, s => some (cVal, ctx, s)
  | m + 1, ctx, cVal, s =>
      let k := m
      match guardedDecode O nctx s ctx with
      | none => none
      | some (b, s') =>
          let v := cond b 1 0
          let cVal' := cVal ||| (v <<< k)
          let ctx' := ((ctx &&& 0x01f7) <<< 1) ||| v |||
            (if useLine then (line1 >>> (k + 1)) &&& 0x0010 else 0)
          opt3BitsHead O nctx line1 useLine m ctx' cVal' s'

/-- Trailing bit loop of `decodeArithTemplate3Opt`. -/
def opt3BitsTail (O : ArithOracle σ) (nctx : Nat) (line1 : Nat) (useLine : Bool) :
    Nat → Nat → Nat → Nat → σ → Option (Nat × Nat × σ)
  | 0, _, ctx, cVal, s => some (cVal, ctx, s)
  | m + 1, k, ctx, cVal, s =>
      match guardedDecode O nctx s ctx with
      | none => none
      | some (b, s') =>
          let v := cond b 1 0
          let cVal' := cVal ||| (v <<< (7 - k))
          let ctx' := ((ctx &&& 0x01f7) <<< 1) ||| v |||
            (if useLine then (line1 >>> (8 - k)) &&& 0x0010 else 0)
          opt3BitsTail O nctx line1 useLine m (k + 1) ctx' cVal' s'

/-- Byte loop of `decodeArithTemplate3Opt`. -/
def opt3ByteLoop (O : ArithOracle σ) (nctx prevoff offset : Nat) (useLine : Bool) :
    Nat → Nat → List Nat → Nat → Nat → σ → Option (List Nat × Nat × Nat × σ)
  | 0, _, d, line1, ctx, s => some (d, line1, ctx, s)
  | m + 1, cc, d, line1, ctx, s =>
      let line1' := if useLine then ((line1 <<< 8) ||| Image.byteAt d (prevoff + cc + 1)) % 2 ^ 32
        else line1
      match opt3BitsHead O nctx line1' useLine 8 ctx 0 s with
      | none => none
      | some (cVal, ctx', s') =>
          opt3ByteLoop O nctx prevoff offset useLine m (cc + 1)
            (d.set (offset + cc) cVal) line1' ctx' s'

/-- One row of `decodeArithTemplate3Opt` below the `ltp` handling. -/
def opt3RowBody (O : ArithOracle σ) (nctx stride lastByte bitsLeft h : Nat)
    (d : List Nat) (s : σ) : Option (List Nat × σ) :=
  let offset := h * stride
  if 0 < h then
    let prevoff := offset - stride
    let line1 := Image.byteAt d prevoff
    let ctx := (line1 >>> 1) &&& 0x03f0
    match opt3ByteLoop O nctx prevoff offset true lastByte 0 d line1 ctx s with
    | none => none
    | some (d1, line1', ctx', s') =>
        let l1t := (line1' <<< 8) % 2 ^ 32
        match opt3BitsTail O nctx l1t true bitsLeft 0 ctx' 0 s' with
        | none => none
        | some (cVal, _, s'') => some (d1.set (offset + lastByte) cVal, s'')
  else
    match opt3ByteLoop O nctx 0 offset false lastByte 0 d 0 0 s with
    | none => none
    | some (d1, _, ctx', s') =>
        match opt3BitsTail O nctx 0 false bitsLeft 0 ctx' 0 s' with
        | none => none
        | some (cVal, _, s'') => some (d1.set (offset + lastByte) cVal, s'')

/-- Row loop of `decodeArithTemplate3Opt`. -/
def opt3RowLoop (O : ArithOracle σ) (p : GRDProc) (nctx stride lineBytes lastByte bitsLeft : Nat) :
    Nat → Nat → List Nat → Nat → σ → Option (List Nat × σ)
  | 0, _, d, _, s => some (d, s)
  | n + 1, h, d, ltp, s =>
      let tp : Option (Nat × σ) :=
        if p.tpgdon then
          match guardedDecode O nctx s 0x0195 with
          | none => none
          | some (b, s') => some (ltp ^^^ cond b 1 0, s')
        else some (ltp, s)
      match tp with
      | none => none
      | some (ltp', s') =>
          let offset := h * stride
          if ltp' ≠ 0 then
            let d' := if 0 < h then copyBytes d offset (offset - stride) lineBytes else d
            opt3RowLoop O p nctx stride lineBytes lastByte bitsLeft n (h + 1) d' ltp' s'
          else
            match opt3RowBody O nctx stride lastByte bitsLeft h d s' with
            | none => none
            | some (d', s'') =>
                opt3RowLoop O p nctx stride lineBytes lastByte bitsLeft n (h + 1) d' ltp' s''

/-- `decodeArithTemplate3Opt`. -/
def decodeArithTemplate3Opt (O : ArithOracle σ) (p : GRDProc) (nctx : Nat)
    (s : σ) : Option (Image × σ) :=
  let img := Image.newImage (p.gbWidth : Int) (p.gbHeight : Int)
  match img.data with
  | none => none
  | some d =>
      let stride := img.stride
      let lineBytes0 := (p.gbWidth + 7) >>> 3
      let lineBytes := if lineBytes0 = 0 then 1 else lineBytes0
      let lastByte := lineBytes - 1
      let bitsLeft := p.gbWidth - lastByte * 8
      match opt3RowLoop O p nctx stride lineBytes lastByte bitsLeft p.gbHeight 0 d 0 s with
      | none => none
      | some (d', s') => some ({ img with data := some d' }, s')

/-- `GRDProc.DecodeArith`: dimension guard, then template dispatch into the
optimized or the unoptimized path. -/
def GRDProc.decodeArith (O : ArithOracle σ) (p : GRDProc) (nctx : Nat) (s : σ) :
    Option (Image × σ) :=
  if ¬ Image.isValidImageSize (p.gbWidth : Int) (p.gbHeight : Int) then
    some (Image.newImage (p.gbWidth : Int) (p.gbHeight : Int), s)
  else
    match p.gbTemplate with
    | 0 => if p.useOptimisedTemplate 0 then decodeArithOpt3 O p nctx s 0
        else decodeArithTemplateUnopt O p nctx s 0
    | 1 => if p.useOptimisedTemplate 1 then decodeArithOpt3 O p nctx s 1
        else decodeArithTemplateUnopt O p nctx s 1
    | 2 => if p.useOptimisedTemplate 2 then decodeArithOpt3 O p nctx s 2
        else decodeArithTemplateUnopt O p nctx s 2
    | _ => if p.useOptimisedTemplate3 then decodeArithTemplate3Opt O p nctx s
        else decodeArithTemplate3Unopt O p nctx s

/-! ## Concrete inputs used by counterexamples and witnesses -/

/-- The external image produced by `NewImageFromBuffer(8, 1, 4, [0xAA,0,0,0])`. -/
def extImg : Image :=
  { width := 8, height := 1, stride := 4, data := some [0xAA, 0, 0, 0], owned := false }

/-- A custom Huffman-table segment: flag byte 0 (no OOB, 1-bit prefix lengths,
1-bit range lengths), low = 0, high = 1, then the bits `1111` encoding one
value row `(codeLen 1, rangeLen 1)` and the two out-of-range rows with
codeLen 1 each. -/
def csBytes : List Nat := [0x00, 0, 0, 0, 0, 0, 0, 0, 1, 0xF0]

/-- The table the decoder builds from `csBytes`: three entries, all with code
length 1, canonically assigned the codes 0, 1 and 2. -/
def csTable : HuffmanTable :=
  { hasOOB := false,
    entries := [⟨1, 0, 1, 0⟩, ⟨1, 1, 32, -1⟩, ⟨1, 2, 32, 1⟩] }

/-- An end-of-page segment header: number 2, flags 0x31 (type 49), no referred
segments, page association 1, data length 0. -/
def eopHeader : List Nat := [0, 0, 0, 2, 0x31, 0x00, 0x01, 0, 0, 0, 0]

/-- A buffer whose next end-of-page marker begins at byte 6, with 6 bytes of
non-marker data before it. -/
def c4buf : List Nat := [0xAA, 0xAA, 0xAA, 0xAA, 0xAA, 0xAA] ++ eopHeader

/-- A 1×1 context-owned page image with stride 4. -/
def c8page : Image :=
  { width := 1, height := 1, stride := 4, data := some [0, 0, 0, 0], owned := true }

/-- A striped page info (`height = 0xFFFFFFFF`, explicit striped flag). -/
def c8info : PageInfo :=
  { width := 1, height := unboundedPageHeight, resolutionX := 0, resolutionY := 0,
    defaultPixelValue := false, striped := true, maxStripeSize := 1 }

/-- The context slice for the C8 scenarios. -/
def c8ctx : PageCtx := { page := some c8page, bufSpecified := false, pageInfos := [some c8info] }

/-- A 1×2 decoded region image. -/
def c8regionImg : Image :=
  { width := 1, height := 2, stride := 4, data := some (List.replicate 8 0), owned := true }

/-- Region placed at `y = 100000000`: its bottom edge `100000002` exceeds
`maxImageBytes / stride = 67108863`, the silent cutoff inside `Expand`. -/
def c8farRegion : RegionInfo := { width := 1, height := 2, x := 0, y := 100000000, flags := 0 }

/-- Region placed at `y = 1`: bottom edge 3. -/
def c8nearRegion : RegionInfo := { width := 1, height := 2, x := 0, y := 1, flags := 0 }

/-- Distinctness of assigned codes inside the length class `j`. -/
def codeDistinctAt (j : Int) (a b : Int × Int) : Prop :=
  a.1 = j → b.1 = j → a.2 ≠ b.2

/-- Standard table 14 as built by `NewStandardHuffmanTable`. -/
def stdTable14 : HuffmanTable :=
  { hasOOB := false,
    entries := [⟨3, 4, 0, -2⟩, ⟨3, 5, 0, -1⟩, ⟨1, 0, 0, 0⟩, ⟨3, 6, 0, 1⟩, ⟨3, 7, 0, 2⟩,
      ⟨0, 0, 32, -3⟩, ⟨0, 0, 32, 3⟩] }

/-!
# Theorems
-/

/-! ## C1 — text-region glyph placement -/

/-- C1: For every text-region glyph placement, the pre-compose cursor shift,
the compose target and the post-compose cursor advance computed by
`getComposeData` and its caller agree exactly with the claim's table: advance
by `w−1` first when not transposed with a right corner (by `h−1` when
transposed with a bottom corner); compose at `(s,t)`, `(s−w+1,t)`,
`(s,t−h+1)`, `(s−w+1,t−h+1)` (swapped roles when transposed); then advance by
`w−1` for not-transposed TL/BL, by `h−1` for transposed TL/TR, else 0. -/
theorem C1_text_placement_matches_table (transposed : Bool) (c : Corner)
    (wi hi : Nat) (curs ti : Int) :
    textPlacementStep transposed c wi hi curs ti =
      textPlacementClaim transposed c wi hi curs ti := by
  cases transposed <;> cases c <;>
    simp [textPlacementStep, textPlacementClaim, getComposeData, Prod.ext_iff] <;>
    omega

/-! ## C9 — IAID decoder accumulator invariant -/

/-- C9: the IAID accumulator starts at 1, lies in `[2^k, 2^(k+1))` after `k`
bit reads — so every context index used (the value of `prev` before each of
the `len` reads) is below the `2^len`-entry context array length — and the
returned value `prev - 2^len` is non-negative and below `2^len`. -/
theorem C9_iaid_decode_in_range (len : Nat) (oracle : Nat → Bool) :
    (∀ k, 2 ^ k ≤ iaidPrev oracle k ∧ iaidPrev oracle k < 2 ^ (k + 1)) ∧
    (∀ k, k < len → iaidPrev oracle k < 2 ^ len) ∧
    0 ≤ iaidDecode len oracle ∧ iaidDecode len oracle < 2 ^ len := by
  have hbound : ∀ k, 2 ^ k ≤ iaidPrev oracle k ∧ iaidPrev oracle k < 2 ^ (k + 1) := by
    intro k
    induction k with
    | zero => simp [iaidPrev]
    | succ n ih =>
        have h2 : 2 ^ (n + 1) = 2 * 2 ^ n := by ring
        have h3 : 2 ^ (n + 2) = 2 * 2 ^ (n + 1) := by ring
        cases h : oracle n <;> simp [iaidPrev, h] <;> omega
  refine ⟨hbound, ?_, ?_, ?_⟩
  · intro k hk
    have h1 := (hbound k).2
    have h2 : 2 ^ (k + 1) ≤ 2 ^ len := Nat.pow_le_pow_right (by omega) (by omega)
    omega
  · have h1 := (hbound len).1
    simp only [iaidDecode]
    have : (2 : Int) ^ len ≤ (iaidPrev oracle len : Int) := by exact_mod_cast h1
    omega
  · have h2 := (hbound len).2
    simp only [iaidDecode]
    have : (iaidPrev oracle len : Int) < 2 ^ (len + 1) := by exact_mod_cast h2
    have hp : (2 : Int) ^ (len + 1) = 2 * 2 ^ len := by ring
    omega

/-- Witness for C9 at `len = 2` with the all-ones bit sequence. -/
theorem C9_iaid_decode_in_range_witness :
    iaidPrev (fun _ => true) 1 < 2 ^ 2 ∧
    0 ≤ iaidDecode 2 (fun _ => true) ∧ iaidDecode 2 (fun _ => true) < 2 ^ 2 :=
  ⟨(C9_iaid_decode_in_range 2 (fun _ => true)).2.1 1 (by decide),
   (C9_iaid_decode_in_range 2 (fun _ => true)).2.2.1,
   (C9_iaid_decode_in_range 2 (fun _ => true)).2.2.2⟩

/-! ## C10 — oversized input buffers -/

/-- C10: for any input longer than 256 MiB, `NewBitStream` silently installs
an empty buffer: construction reports no error (it is total and returns the
stream), `BytesLeft` is 0, `InBounds` is false, and every read operation
fails with the out-of-bounds error. -/
theorem C10_oversized_buffer_dropped (data : List Nat)
    (h : maxSpanSize < data.length) :
    (BitStream.new data).bytesLeft = 0 ∧
    (BitStream.new data).inBounds = false ∧
    (∀ n, (BitStream.new data).readNBits n = none) ∧
    (BitStream.new data).read1Bit = none ∧
    (BitStream.new data).readByte = none ∧
    (BitStream.new data).readUint32 = none ∧
    (BitStream.new data).readUint16 = none := by
  have hnew : BitStream.new data = { buf := [], byteIx := 0, bitIx := 0 } := by
    simp [BitStream.new, h]
  rw [hnew]
  refine ⟨rfl, rfl, ?_, rfl, rfl, rfl, rfl⟩
  intro n
  simp [BitStream.readNBits, BitStream.inBounds]

/-- Witness for C10 on a concrete 256 MiB + 1 byte buffer. -/
theorem C10_oversized_buffer_dropped_witness :
    (BitStream.new (List.replicate (maxSpanSize + 1) 0)).bytesLeft = 0 ∧
    (BitStream.new (List.replicate (maxSpanSize + 1) 0)).inBounds = false :=
  ⟨(C10_oversized_buffer_dropped _ (by simp)).1,
   (C10_oversized_buffer_dropped _ (by simp)).2.1⟩

/-! ## C7 — truncated bit reads -/

/-- C7 counterexample: on a 1-byte stream in bounds, `ReadNBits 9` has fewer
than 9 bits available, yet it returns the 8 available bits **successfully**
(`some`, i.e. a nil error in Go) instead of signalling an out-of-bounds
condition; the claim that a truncated read "signals an out-of-bounds
condition to the caller" is false here. -/
theorem C7_truncated_read_signals_no_error :
    (BitStream.new [0xb1]).inBounds = true ∧
    (BitStream.new [0xb1]).lengthInBits - (BitStream.new [0xb1]).bitPos < 9 ∧
    (BitStream.new [0xb1]).readNBits 9 =
      some (0xb1, { buf := [0xb1], byteIx := 1, bitIx := 0 }) := by
  refine ⟨by decide, by decide, by decide⟩

/-- `advanceBit` moves the absolute bit position forward by one and preserves
the buffer and well-formedness. -/
theorem advanceBit_spec (bs : BitStream) (hwf : bs.wf) :
    bs.advanceBit.bitPos = bs.bitPos + 1 ∧ bs.advanceBit.wf ∧
    bs.advanceBit.buf = bs.buf := by
  unfold BitStream.advanceBit BitStream.bitPos BitStream.wf at *
  split_ifs with h <;> simp_all <;> omega

/-- `readBitsLoop` advances the bit position by exactly the requested count. -/
theorem readBitsLoop_spec (k : Nat) : ∀ (acc : Nat) (bs : BitStream), bs.wf →
    (BitStream.readBitsLoop k acc bs).2.bitPos = bs.bitPos + k ∧
    (BitStream.readBitsLoop k acc bs).2.wf ∧
    (BitStream.readBitsLoop k acc bs).2.buf = bs.buf := by
  induction k with
  | zero => intro acc bs hwf; simp [BitStream.readBitsLoop, hwf]
  | succ n ih =>
      intro acc bs hwf
      obtain ⟨h1, h2, h3⟩ := advanceBit_spec bs hwf
      obtain ⟨g1, g2, g3⟩ := ih ((acc * 2 + ((bs.curByteRaw >>> (7 - bs.bitIx)) &&& 1)) % 2 ^ 32)
        bs.advanceBit h2
      refine ⟨?_, g2, by rw [BitStream.readBitsLoop]; rw [g3, h3]⟩
      rw [BitStream.readBitsLoop]; rw [g1, h1]; omega

/-- C7 amended: a read that would cross the end of the buffer returns the
available bits **without** signalling an error — the stream simply ends up
positioned at the end of the data; the call fails only when the stream is
already out of bounds before the read. -/
theorem C7_truncated_read_amended (bs : BitStream) (n : Nat) :
    (bs.inBounds = false → bs.readNBits n = none) ∧
    (bs.inBounds = true → bs.wf →
      ∃ v bs', bs.readNBits n = some (v, bs') ∧
        bs'.bitPos = min (bs.bitPos + n) bs.lengthInBits ∧ bs'.buf = bs.buf) := by
  constructor
  · intro h
    simp [BitStream.readNBits, h]
  · intro h hwf
    have hin : bs.byteIx < bs.buf.length := by
      simpa [BitStream.inBounds] using h
    have hpos : bs.bitPos < bs.lengthInBits := by
      unfold BitStream.bitPos BitStream.lengthInBits BitStream.wf at *
      omega
    unfold BitStream.readNBits
    rw [h]
    simp only [Bool.true_eq_false, not_false_eq_true, if_true, reduceIte]
    have hgt : ¬ bs.bitPos > bs.lengthInBits := by omega
    rw [if_neg hgt]
    set btr := if bs.bitPos + n ≤ bs.lengthInBits then n else bs.lengthInBits - bs.bitPos with hbtr
    obtain ⟨g1, _, g3⟩ := readBitsLoop_spec btr 0 bs hwf
    refine ⟨(BitStream.readBitsLoop btr 0 bs).1, (BitStream.readBitsLoop btr 0 bs).2, rfl, ?_, g3⟩
    rw [g1, hbtr]
    split_ifs <;> omega

/-- Witness for C7 amended on the 1-byte stream. -/
theorem C7_truncated_read_amended_witness :
    ∃ v bs', (BitStream.new [0xb1]).readNBits 9 = some (v, bs') ∧
      bs'.bitPos = min ((BitStream.new [0xb1]).bitPos + 9) (BitStream.new [0xb1]).lengthInBits ∧
      bs'.buf = (BitStream.new [0xb1]).buf :=
  (C7_truncated_read_amended (BitStream.new [0xb1]) 9).2 (by decide)
    (show (BitStream.new [0xb1]).bitIx ≤ 7 by decide)

/-! ## C6 / C8 — image growth -/

/-- `Expand` on any image with an allocated buffer of the invariant size:
when the target height is larger than the current one and within the
`maxImageBytes / stride` cutoff, the image is reallocated with the old bytes
preserved, the new rows filled with the requested value, the height updated,
and ownership taken — for owned and external images alike. -/
theorem expand_grows (img : Image) (d : List Nat) (hh : Int) (v : Bool)
    (hd : img.data = some d) (hlen : d.length = img.stride * img.height)
    (h1 : (img.height : Int) < hh) (h2 : hh ≤ maxImageBytes / (img.stride : Int)) :
    img.expand hh v = { img with height := hh.toNat, owned := true, data := some (d ++ List.replicate (img.stride * hh.toNat - d.length) (if v then 0xff else 0)) } := by
  unfold Image.expand
  rw [hd]
  simp only
  rw [if_neg (by push_neg; exact ⟨by omega, by omega⟩)]
  have hht : img.height ≤ hh.toNat := by omega
  have hsz : d.length ≤ img.stride * hh.toNat := by
    rw [hlen]; exact Nat.mul_le_mul_left _ hht
  have hcopied : d.take (img.stride * hh.toNat) ++
      List.replicate (img.stride * hh.toNat - d.length) 0 =
      d ++ List.replicate (img.stride * hh.toNat - d.length) 0 := by
    rw [List.take_of_length_le hsz]
  rw [hcopied]
  have htake : (d ++ List.replicate (img.stride * hh.toNat - d.length) 0).take
      (img.stride * img.height) = d := by
    rw [← hlen, List.take_append_of_le_length (le_refl _), List.take_length]
  rw [htake, ← hlen]

/-- C6 counterexample: an external (caller-buffer) image built by
`NewImageFromBuffer` **does** grow when `Expand` is called with a larger
height — its height changes from 1 to 2, its buffer is reallocated (and
extended by a filled row), and it becomes owned — contradicting the claim
that external images are immutable-size. -/
theorem C6_external_image_does_grow :
    Image.newImageFromBuffer 8 1 4 [0xAA, 0, 0, 0] = .ok extImg ∧
    extImg.owned = false ∧
    (extImg.expand 2 true).height = 2 ∧ extImg.height = 1 ∧
    (extImg.expand 2 true).data = some [0xAA, 0, 0, 0, 0xff, 0xff, 0xff, 0xff] ∧
    (extImg.expand 2 true).owned = true := by
  refine ⟨rfl, rfl, by decide, rfl, by decide, by decide⟩

/-- C6 amended: `Expand` with a larger height (within the
`maxImageBytes / stride` cutoff) grows **any** image with an allocated
buffer, external images included: the buffer is reallocated preserving the
pixels, the new rows are filled, the height becomes the target, and the image
becomes owned (an external image's link to the caller's buffer is severed
rather than the image being left unchanged). -/
theorem C6_expand_grows_external (w h stride : Int) (buf : List Nat) (img : Image)
    (hh : Int) (v : Bool)
    (hok : Image.newImageFromBuffer w h stride buf = .ok img)
    (hpos : 0 < img.stride)
    (h1 : (img.height : Int) < hh) (h2 : hh ≤ maxImageBytes / (img.stride : Int)) :
    img.owned = false ∧
    (img.expand hh v).height = hh.toNat ∧
    (img.expand hh v).owned = true ∧
    ∃ d, img.data = some d ∧
      (img.expand hh v).data = some (d ++ List.replicate
        (img.stride * hh.toNat - d.length) (if v then 0xff else 0)) := by
  have hstruct : img.owned = false ∧
      ∃ d, img.data = some d ∧ d.length = img.stride * img.height := by
    unfold Image.newImageFromBuffer at hok
    dsimp only at hok
    split_ifs at hok with g1 g2 g3 g4 g5
    obtain rfl := Except.ok.inj hok
    refine ⟨rfl, buf.take (stride * h).toNat, rfl, ?_⟩
    simp only [List.length_take]
    push_neg at g1 g2 g5
    have h0s : (0 : Int) ≤ stride := by omega
    have h0h : (0 : Int) ≤ h := by omega
    obtain ⟨a, rfl⟩ : ∃ a : Nat, stride = (a : Int) := ⟨stride.toNat, by omega⟩
    obtain ⟨b, rfl⟩ : ∃ b : Nat, h = (b : Int) := ⟨h.toNat, by omega⟩
    have hmul : ((a : Int) * (b : Int)).toNat = a * b := by
      rw [← Nat.cast_mul, Int.toNat_natCast]
    simp only [hmul, Int.toNat_natCast]
    omega
  obtain ⟨hown, d, hd, hlen⟩ := hstruct
  have hex := expand_grows img d hh v hd hlen h1 h2
  rw [hex]
  exact ⟨hown, rfl, rfl, d, hd, rfl⟩

/-- Witness for C6 amended on the concrete external image. -/
theorem C6_expand_grows_external_witness :
    extImg.owned = false ∧
    (extImg.expand 2 true).height = (2 : Int).toNat ∧
    (extImg.expand 2 true).owned = true ∧
    ∃ d, extImg.data = some d ∧
      (extImg.expand 2 true).data = some (d ++ List.replicate
        (extImg.stride * (2 : Int).toNat - d.length) (if true then 0xff else 0)) :=
  C6_expand_grows_external 8 1 4 [0xAA, 0, 0, 0] extImg 2 true rfl
    (by decide) (by decide) (by decide)

/-- C8 counterexample: a context-owned striped page receives a (valid 1×2)
region whose bottom edge `y + 2 = 100000002` exceeds the page height, yet the
page is **not** grown at all: `Expand` silently refuses any target height
above `maxImageBytes / stride` (= 67108863 here), so the new height does not
cover the region. -/
theorem C8_far_region_does_not_grow_page :
    c8info.shouldTreatAsStriped = true ∧
    c8ctx.bufSpecified = false ∧
    c8farRegion.y + (c8regionImg.height : Int) > (c8page.height : Int) ∧
    (maxImageBytes / (c8page.stride : Int) <
      c8farRegion.y + (c8regionImg.height : Int)) ∧
    c8ctx.composeRegionGrow c8farRegion c8regionImg none = c8ctx := by
  refine ⟨by decide, rfl, by decide, by decide, by decide⟩

/-- C8 amended: the growth happens exactly as the claim describes **provided**
the region's bottom edge does not exceed `maxImageBytes / stride` (beyond
that, `Expand` leaves the page untouched, as the counterexample shows): the
page is reallocated to the region's bottom edge, the previous bytes are
preserved, and every new row is filled with the page's default pixel. -/
theorem C8_striped_page_grows_within_limit (c : PageCtx) (pg : Image)
    (info : PageInfo) (d : List Nat) (ri : RegionInfo) (img : Image)
    (hpage : c.page = some pg) (hd : pg.data = some d)
    (hlen : d.length = pg.stride * pg.height)
    (hbuf : c.bufSpecified = false)
    (hinfo : c.latestPageInfo = some info)
    (hstriped : info.shouldTreatAsStriped = true)
    (hw : 0 < img.width) (hh : 0 < img.height)
    (hbeyond : (pg.height : Int) < ri.y + (img.height : Int))
    (hlimit : ri.y + (img.height : Int) ≤ maxImageBytes / (pg.stride : Int))
    (hfits : ri.y + (img.height : Int) < 2 ^ 31) :
    (c.composeRegionGrow ri img none).page = some { pg with
      height := (ri.y + (img.height : Int)).toNat, owned := true,
      data := some (d ++ List.replicate
        (pg.stride * (ri.y + (img.height : Int)).toNat - d.length)
        (if info.defaultPixelValue then 0xff else 0)) } := by
  set bottom := ri.y + (img.height : Int) with hbottom
  have hb0 : 0 < bottom := by omega
  have hto : toInt32 bottom = bottom := by
    unfold toInt32; omega
  unfold PageCtx.composeRegionGrow
  dsimp only [GoRect.rwidth, GoRect.rheight]
  rw [if_neg (by push_neg; constructor <;> omega)]
  unfold PageCtx.ensurePageHeight
  rw [hpage]
  simp only
  rw [if_neg (by omega), if_neg (by rw [hbuf]; simp; omega), hinfo]
  simp only [hstriped, Bool.true_eq_false, not_true_eq_false, if_false, reduceIte]
  have hexp := expand_grows pg d (toInt32 bottom) info.defaultPixelValue hd hlen
    (by rw [hto]; omega) (by rw [hto]; omega)
  rw [hexp, hto]

/-- Witness for C8 amended: the near region (bottom edge 3) grows the 1×1
page to height 3 with zero-filled new rows. -/
theorem C8_striped_page_grows_within_limit_witness :
    (c8ctx.composeRegionGrow c8nearRegion c8regionImg none).page = some { c8page with
      height := ((c8nearRegion.y + (c8regionImg.height : Int))).toNat, owned := true,
      data := some ([0, 0, 0, 0] ++ List.replicate
        (c8page.stride * ((c8nearRegion.y + (c8regionImg.height : Int))).toNat - 4)
        (if c8info.defaultPixelValue then 0xff else 0)) } :=
  C8_striped_page_grows_within_limit c8ctx c8page c8info [0, 0, 0, 0] c8nearRegion
    c8regionImg rfl rfl (by decide) rfl (by decide) (by decide) (by decide) (by decide)
    (by decide) (by decide) (by decide)

/-! ## C4 — segments with unknown data length -/

/-- C4 counterexample: a segment with `data_length = 0xFFFFFFFF` whose payload
parse ended at byte 0 of `c4buf`.  The next end-of-page marker begins at byte
6 (and there is none at byte 4), yet the dispatcher advances the stream to
byte 4 — exactly 4 bytes past the payload — so the segment does **not** end
at the end-of-page marker. -/
theorem C4_unknown_length_skips_four_bytes_not_to_marker :
    isEndOfPageHeaderAt c4buf 6 = true ∧
    isEndOfPageHeaderAt c4buf 4 = false ∧
    advanceAfterSegment 0 { buf := c4buf, byteIx := 0, bitIx := 0 } 0xffffffff =
      some { buf := c4buf, byteIx := 4, bitIx := 0 } := by
  refine ⟨by decide, by decide, by decide⟩

/-- C4 amended: for a segment with `data_length = 0xFFFFFFFF`, after its data
is parsed the dispatcher advances the stream by exactly 4 bytes (clamped at
the buffer end) from wherever the payload parse left it — it performs no scan
for the end-of-page marker, whatever the buffer contents. -/
theorem C4_unknown_length_advances_four (offset : Nat) (bs : BitStream)
    (h : bs.byteIx + 4 ≤ 2 ^ 32 - 1) :
    advanceAfterSegment offset bs 0xffffffff =
      some { bs with byteIx := min (bs.byteIx + 4) bs.buf.length } := by
  unfold advanceAfterSegment BitStream.addOffset BitStream.setOffset
  rw [if_neg (by decide)]
  congr 2
  omega

/-- Witness for C4 amended on the concrete buffer. -/
theorem C4_unknown_length_advances_four_witness :
    advanceAfterSegment 0 { buf := c4buf, byteIx := 0, bitIx := 0 } 0xffffffff =
      some { buf := c4buf, byteIx := min (0 + 4) c4buf.length, bitIx := 0 } :=
  C4_unknown_length_advances_four 0 { buf := c4buf, byteIx := 0, bitIx := 0 } (by decide)

/-! ## C3 — symbol-dictionary export count -/

/-- The export run-length loop produces exactly the flags described by the
runs: the result extends the accumulator, the exported counter counts the
`true` flags of the extension, and the final index advances by its length. -/
theorem exportFlagsLoop_spec (total : Nat) :
    ∀ (rs : List (Int × Bool)) (index : Nat) (curFlag : Bool) (exported : Nat)
      (acc flags : List Bool) (e idx : Nat),
      exportFlagsLoop total index curFlag exported acc rs = .ok (flags, e, idx) →
      ∃ ext, flags = acc ++ ext ∧ e = exported + ext.count true ∧
        idx = index + ext.length := by
  intro rs
  induction rs with
  | nil =>
      intro index curFlag exported acc flags e idx h
      unfold exportFlagsLoop at h
      split_ifs at h
      simp only [Except.ok.injEq, Prod.mk.injEq] at h
      obtain ⟨rfl, rfl, rfl⟩ := h
      exact ⟨[], by simp⟩
  | cons head rest ih =>
      intro index curFlag exported acc flags e idx h
      unfold exportFlagsLoop at h
      by_cases hlt : index < total
      · rw [if_pos hlt] at h
        obtain ⟨run, inBand⟩ := head
        dsimp only at h
        split_ifs at h with g1 g2 g3 g4
        all_goals (
          obtain ⟨ext, hf, he, hi⟩ := ih _ _ _ _ _ _ _ h
          refine ⟨List.replicate run.toNat curFlag ++ ext, ?_, ?_, ?_⟩
          · rw [hf, List.append_assoc]
          · rw [he, List.count_append, List.count_replicate]
            simp_all <;> omega
          · rw [hi, List.length_append, List.length_replicate]; omega)
      · rw [if_neg hlt] at h
        simp only [Except.ok.injEq, Prod.mk.injEq] at h
        obtain ⟨rfl, rfl, rfl⟩ := h
        exact ⟨[], by simp⟩

/-- A successful `decodeExportFlagsArith` yields flags that cover the whole
symbol set and whose `true` count is within the declared export cap. -/
theorem decodeExportFlags_spec (numEx total : Nat) (rs : List (Int × Bool))
    (flags : List Bool) (h : decodeExportFlags numEx total rs = .ok flags) :
    flags.count true ≤ numEx ∧ flags.length = total := by
  unfold decodeExportFlags at h
  cases hloop : exportFlagsLoop total 0 false 0 [] rs with
  | error err => rw [hloop] at h; exact absurd h (by simp)
  | ok trip =>
      obtain ⟨fl, e, idx⟩ := trip
      rw [hloop] at h
      dsimp only at h
      split_ifs at h with h1 h2
      simp only [Except.ok.injEq] at h
      subst h
      obtain ⟨ext, hf, he, hi⟩ := exportFlagsLoop_spec total rs 0 false 0 [] fl e idx hloop
      simp only [List.nil_append] at hf
      subst hf
      push_neg at h1 h2
      omega

/-- The dictionary-building loop adds `min (numEx - exported) (#true flags)`
images to the accumulator. -/
theorem buildExportLoop_length {α : Type} (numIn numEx : Nat)
    (inSyms newSyms : List (Option α)) :
    ∀ (flags : List Bool) (i exported : Nat) (acc out : List (Option α)),
      buildExportLoop numIn numEx inSyms newSyms i exported acc flags = .ok out →
      out.length = acc.length + min (numEx - exported) (flags.count true) := by
  intro flags
  induction flags with
  | nil =>
      intro i exported acc out h
      unfold buildExportLoop at h
      simp only [Except.ok.injEq] at h
      subst h
      simp
  | cons f rest ih =>
      intro i exported acc out h
      unfold buildExportLoop at h
      split_ifs at h with g1 g2 g3 g4
      · have hrec := ih _ _ _ _ h
        rcases g1 with g | g
        · have hf : f = false := by simpa using g
          subst hf
          simpa [List.count_cons] using hrec
        · have : numEx - exported = 0 := by omega
          rw [hrec, this]
          simp
      · have hrec := ih _ _ _ _ h
        push_neg at g1
        have hf : f = true := by simpa using g1.1
        subst hf
        rw [hrec]
        simp only [List.length_append, List.length_cons, List.length_nil,
          List.count_cons]
        have hlt : exported < numEx := g1.2
        simp only [beq_self_eq_true, if_true, reduceIte]
        omega
      · have hrec := ih _ _ _ _ h
        push_neg at g1
        have hf : f = true := by simpa using g1.1
        subst hf
        rw [hrec]
        simp only [List.length_append, List.length_cons, List.length_nil,
          List.count_cons]
        have hlt : exported < numEx := g1.2
        simp only [beq_self_eq_true, if_true, reduceIte]
        omega

/-- C3: for every symbol-dictionary decode that completes without error, the
export pass accepts only flag sets whose `true` count is within `num_ex`, and
the dictionary built from them contains exactly
`min(num_ex, exported_true_count)` symbol bitmaps. -/
theorem C3_dictionary_size_min {α : Type} (numIn numNew numEx : Nat)
    (inSyms newSyms : List (Option α)) (rs : List (Int × Bool))
    (flags : List Bool) (dict : List (Option α))
    (h1 : decodeExportFlags numEx (numIn + numNew) rs = .ok flags)
    (h2 : buildExportedDictionary numIn numNew numEx inSyms newSyms flags = .ok dict) :
    flags.count true ≤ numEx ∧ dict.length = min numEx (flags.count true) := by
  obtain ⟨hle, hlen⟩ := decodeExportFlags_spec numEx (numIn + numNew) rs flags h1
  unfold buildExportedDictionary at h2
  rw [if_neg (by omega)] at h2
  have hb := buildExportLoop_length numIn numEx inSyms newSyms
    (flags.take (numIn + numNew)) 0 0 [] dict h2
  rw [List.take_of_length_le (by omega)] at hb
  refine ⟨hle, ?_⟩
  simpa using hb

/-- Witness for C3: runs `(0, true), (2, true)` over 1 input and 1 new symbol
with `num_ex = 2` export both symbols. -/
theorem C3_dictionary_size_min_witness :
    ([true, true] : List Bool).count true ≤ 2 ∧
    ([some 5, some 7] : List (Option Nat)).length = min 2 ([true, true].count true) :=
  C3_dictionary_size_min 1 1 2 [some 5] [some 7] [(0, true), (2, true)]
    [true, true] [some 5, some 7] rfl rfl

/-! ## C5 — Huffman canonical code assignment -/

/-- One assignment pass gives the entries of its code length strictly
increasing codes starting at `cur`, bounded by `int32Max`, leaves all other
entries untouched (positionally), and preserves value bounds. -/
theorem assignLengthPass_spec (i : Int) :
    ∀ (codes : List (Int × Int)) (cur : Int) (out : List (Int × Int)),
      assignLengthPass i cur codes = .ok out →
      out.length = codes.length ∧
      (∀ k, (codes.getD k (0, 0)).1 ≠ i → out.getD k (0, 0) = codes.getD k (0, 0)) ∧
      (∀ k, (out.getD k (0, 0)).1 = (codes.getD k (0, 0)).1) ∧
      (∀ x ∈ out, x.1 = i → cur ≤ x.2 ∧ x.2 ≤ int32Max) ∧
      List.Pairwise (fun a b => a.1 = i → b.1 = i → a.2 < b.2) out ∧
      (0 ≤ cur → (∀ x ∈ codes, x.1 ≠ i → 0 ≤ x.2 ∧ x.2 ≤ int32Max) →
        ∀ x ∈ out, 0 ≤ x.2 ∧ x.2 ≤ int32Max) := by
  intro codes
  induction codes with
  | nil =>
      intro cur out h
      unfold assignLengthPass at h
      simp only [Except.ok.injEq] at h
      subst h
      simp
  | cons head rest ih =>
      intro cur out h
      obtain ⟨len, code⟩ := head
      unfold assignLengthPass at h
      by_cases hlen : len = i
      · rw [if_pos hlen] at h
        split_ifs at h with hcur
        cases hr : assignLengthPass i (cur + 1) rest with
        | error err => rw [hr] at h; exact absurd h (by simp)
        | ok r =>
            rw [hr] at h
            simp only [Except.ok.injEq] at h
            subst h
            obtain ⟨l1, l2, l3, l4, l5, l6⟩ := ih (cur + 1) r hr
            refine ⟨by simp [l1], ?_, ?_, ?_, ?_, ?_⟩
            · intro k hk
              cases k with
              | zero => simp at hk; omega
              | succ k' => simpa using l2 k' (by simpa using hk)
            · intro k
              cases k with
              | zero => simp
              | succ k' => simpa using l3 k'
            · intro x hx hxi
              rcases List.mem_cons.mp hx with rfl | hx'
              · exact ⟨le_refl _, by omega⟩
              · have := l4 x hx' hxi; omega
            · refine List.Pairwise.cons ?_ l5
              intro b hb _ hbi
              have := l4 b hb hbi
              omega
            · intro hc hrest x hx
              rcases List.mem_cons.mp hx with rfl | hx'
              · exact ⟨by omega, by omega⟩
              · exact l6 (by omega) (fun y hy hyi => hrest y (List.mem_cons_of_mem _ hy) hyi)
                  x hx'
      · rw [if_neg hlen] at h
        cases hr : assignLengthPass i cur rest with
        | error err => rw [hr] at h; exact absurd h (by simp)
        | ok r =>
            rw [hr] at h
            simp only [Except.ok.injEq] at h
            subst h
            obtain ⟨l1, l2, l3, l4, l5, l6⟩ := ih cur r hr
            refine ⟨by simp [l1], ?_, ?_, ?_, ?_, ?_⟩
            · intro k hk
              cases k with
              | zero => simp
              | succ k' => simpa using l2 k' (by simpa using hk)
            · intro k
              cases k with
              | zero => simp
              | succ k' => simpa using l3 k'
            · intro x hx hxi
              rcases List.mem_cons.mp hx with rfl | hx'
              · exact absurd hxi hlen
              · exact l4 x hx' hxi
            · refine List.Pairwise.cons ?_ l5
              intro b _ hai _
              exact absurd hai hlen
            · intro hc hrest x hx
              rcases List.mem_cons.mp hx with rfl | hx'
              · exact hrest (len, code) (List.mem_cons_self _ _) hlen
              · exact l6 hc (fun y hy hyi => hrest y (List.mem_cons_of_mem _ hy) hyi) x hx'

/-- A pass for length `i` preserves pairwise code distinctness within any
other length class `j ≠ i` (those entries are untouched). -/
theorem assignLengthPass_preserves (cur : Int) (i j : Int) (hij : j ≠ i)
    (codes out : List (Int × Int)) (h : assignLengthPass i cur codes = .ok out)
    (hp : List.Pairwise (fun a b => a.1 = j → b.1 = j → a.2 ≠ b.2) codes) :
    List.Pairwise (fun a b => a.1 = j → b.1 = j → a.2 ≠ b.2) out := by
  obtain ⟨l1, l2, l3, _, _, _⟩ := assignLengthPass_spec i codes cur out h
  rw [List.pairwise_iff_getElem] at hp ⊢
  intro k k' hk hk' hlt hkj hk'j
  have hkc : k < codes.length := by omega
  have hk'c : k' < codes.length := by omega
  have e1 : out.getD k (0, 0) = out[k] := List.getD_eq_getElem out (0, 0) hk
  have e2 : out.getD k' (0, 0) = out[k'] := List.getD_eq_getElem out (0, 0) hk'
  have c1 : codes.getD k (0, 0) = codes[k] := List.getD_eq_getElem codes (0, 0) hkc
  have c2 : codes.getD k' (0, 0) = codes[k'] := List.getD_eq_getElem codes (0, 0) hk'c
  have hne1 : (codes.getD k (0, 0)).1 ≠ i := by
    rw [← l3 k, e1, hkj]; exact hij
  have hne2 : (codes.getD k' (0, 0)).1 ≠ i := by
    rw [← l3 k', e2, hk'j]; exact hij
  have heq1 : out[k] = codes[k] := by rw [← e1, l2 k hne1, c1]
  have heq2 : out[k'] = codes[k'] := by rw [← e2, l2 k' hne2, c2]
  rw [heq1, heq2]
  exact hp k k' hkc hk'c hlt (by rw [← heq1]; exact hkj) (by rw [← heq2]; exact hk'j)

/-- The outer loop over code lengths `i, i+1, …, i+fuel-1`: every processed
length class ends pairwise-distinct, untouched classes keep distinctness,
entry lengths are unchanged, and value bounds are preserved. -/
theorem assignOuter_spec (lens : List Int) :
    ∀ (fuel : Nat) (i fPrev : Int) (codes out : List (Int × Int)),
      assignOuter lens fuel i fPrev codes = .ok out →
      out.length = codes.length ∧
      (∀ k, (out.getD k (0, 0)).1 = (codes.getD k (0, 0)).1) ∧
      (∀ j : Int, i ≤ j → j < i + fuel → List.Pairwise (codeDistinctAt j) out) ∧
      (∀ j : Int, (j < i ∨ i + fuel ≤ j) → List.Pairwise (codeDistinctAt j) codes →
        List.Pairwise (codeDistinctAt j) out) ∧
      ((∀ x ∈ codes, 0 ≤ x.2 ∧ x.2 ≤ int32Max) → ∀ x ∈ out, 0 ≤ x.2 ∧ x.2 ≤ int32Max) := by
  intro fuel
  induction fuel with
  | zero =>
      intro i fPrev codes out h
      unfold assignOuter at h
      simp only [Except.ok.injEq] at h
      subst h
      exact ⟨rfl, fun _ => rfl, fun j h1 h2 => absurd h2 (by omega),
        fun _ _ hp => hp, fun hv => hv⟩
  | succ fuel ih =>
      intro i fPrev codes out h
      unfold assignOuter at h
      dsimp only at h
      split_ifs at h with hover
      cases hpass : assignLengthPass i ((fPrev + (lenCount lens (i - 1) : Int)) * 2) codes with
      | error err => rw [hpass] at h; exact absurd h (by simp)
      | ok codes₁ =>
          rw [hpass] at h
          obtain ⟨g1, g2, g3, g4, g5⟩ := ih (i + 1) _ codes₁ out h
          obtain ⟨p1, _, p3, _, p5, p6⟩ := assignLengthPass_spec i codes _ codes₁ hpass
          push_neg at hover
          refine ⟨g1.trans p1, fun k => (g2 k).trans (p3 k), ?_, ?_, ?_⟩
          · intro j h1 h2
            by_cases hji : j = i
            · subst hji
              have hcp : List.Pairwise (codeDistinctAt j) codes₁ :=
                p5.imp (fun hab ha hb => ne_of_lt (hab ha hb))
              exact g4 j (Or.inl (by omega)) hcp
            · exact g3 j (by omega) (by omega)
          · intro j hj hp
            have hji : j ≠ i := by omega
            have hcp : List.Pairwise (codeDistinctAt j) codes₁ :=
              assignLengthPass_preserves _ i j hji codes codes₁ hpass hp
            exact g4 j (by omega) hcp
          · intro hv
            refine g5 (p6 (by omega) (fun y hy _ => hv y hy))

/-- Every element of a list is bounded by the running maximum fold. -/
theorem foldl_max_bound (lens : List Int) :
    ∀ a : Int, a ≤ lens.foldl (fun m c => if c > m then c else m) a ∧
      ∀ l ∈ lens, l ≤ lens.foldl (fun m c => if c > m then c else m) a := by
  induction lens with
  | nil => intro a; simp
  | cons c rest ih =>
      intro a
      obtain ⟨h1, h2⟩ := ih (if c > a then c else a)
      refine ⟨by simp only [List.foldl_cons]; split_ifs at h1 ⊢ <;> omega, ?_⟩
      intro l hl
      rcases List.mem_cons.mp hl with rfl | hl'
      · simp only [List.foldl_cons]; split_ifs at h1 ⊢ <;> omega
      · simpa using h2 l hl'

/-- C5 counterexample: the custom-table stream `csBytes` is accepted by
`NewHuffmanTableFromStream` and produces a table whose three entries all have
code length 1, so the Kraft sum `Σ 2^-L = 3/2` exceeds 1 — the claimed
invariant `Σ 2^-L ≤ 1` does not hold for every successfully constructed
table. -/
theorem C5_custom_table_kraft_exceeds_one :
    (newHuffmanTableFromStream (BitStream.new csBytes)).map Prod.fst = some csTable ∧
    ¬ kraftSum (csTable.entries.map HuffEntry.codeLength) ≤ 1 := by
  constructor
  · decide
  · simp only [kraftSum, csTable, List.map_cons, List.map_nil]
    norm_num

/-- `assignHuffmanCodes` preserves the entry count. -/
theorem assignHuffmanCodes_length (lens : List Int) (out : List (Int × Int))
    (h : assignHuffmanCodes lens = .ok out) : out.length = lens.length := by
  unfold assignHuffmanCodes at h
  dsimp only at h
  split_ifs at h with h0 h1
  · simp only [Except.ok.injEq] at h; subst h; simp
  · obtain ⟨g1, _, _, _, _⟩ := assignOuter_spec lens _ 1 0 _ out h
    simpa using g1

/-- Attaching assigned codes leaves the code lengths unchanged. -/
theorem attachCodes_map_codeLength (entries : List HuffEntry)
    (codes : List (Int × Int)) (h : entries.length ≤ codes.length) :
    (attachCodes entries codes).map HuffEntry.codeLength =
      entries.map HuffEntry.codeLength := by
  induction entries generalizing codes with
  | nil => simp [attachCodes]
  | cons e rest ih =>
      cases codes with
      | nil => simp at h
      | cons c cs =>
          simp only [attachCodes, List.zipWith_cons_cons, List.map_cons, List.cons.injEq]
          refine ⟨trivial, ?_⟩
          have hrec := ih cs (by simp at h; omega)
          simpa [attachCodes] using hrec

/-- The code lengths of a standard table are exactly the `preflen` column of
its built-in line data. -/
theorem newStandardHuffmanTable_lengths (idx : Nat) (t : HuffmanTable)
    (h : newStandardHuffmanTable idx = some t) :
    t.entries.map HuffEntry.codeLength =
      ((builtinHuffmanTables.getD idx (false, [])).2).map (fun l => (l.preflen : Int)) := by
  unfold newStandardHuffmanTable at h
  split_ifs at h with hg
  rcases hbl : builtinHuffmanTables.getD idx (false, []) with ⟨htoob, lines⟩
  rw [hbl] at h
  dsimp only at h
  set entries := lines.map (fun l =>
    ({ codeLength := (l.preflen : Int), code := 0, rangeLen := (l.rangeLen : Int),
       rangeLow := l.rangeLow } : HuffEntry)) with hentries
  cases hac : assignHuffmanCodes (entries.map HuffEntry.codeLength) with
  | error err => rw [hac] at h; exact absurd h (by simp)
  | ok codes =>
      rw [hac] at h
      simp only [Option.some.injEq] at h
      subst h
      have hlen := assignHuffmanCodes_length _ _ hac
      simp only [List.length_map] at hlen
      have := attachCodes_map_codeLength entries codes (by omega)
      rw [this, hentries, List.map_map]
      rfl

/-- C5 amended: canonical assignment always yields pairwise distinct
`(length, code)` pairs among entries of nonzero code length, with every
assigned code value in `[0, 2^31 - 1]` (hence representable in 32 bits); the
Kraft bound `Σ 2^-L ≤ 1` (and a 32-bit cap on code lengths) holds for all 15
standard tables but is not enforced for custom tables parsed from the
stream. -/
theorem C5_distinct_codes_and_standard_kraft :
    (∀ lens out, assignHuffmanCodes lens = .ok out →
      List.Pairwise (fun a b : Int × Int => 0 < a.1 → a.1 = b.1 → a.2 ≠ b.2) out ∧
      ∀ x ∈ out, 0 ≤ x.2 ∧ x.2 ≤ int32Max) ∧
    (∀ idx t, newStandardHuffmanTable idx = some t →
      kraftSum (t.entries.map HuffEntry.codeLength) ≤ 1 ∧
      ∀ e ∈ t.entries, e.codeLength ≤ 32) := by
  constructor
  · intro lens out h
    unfold assignHuffmanCodes at h
    dsimp only at h
    split_ifs at h with h0 h1
    · -- maxLen = 0: nothing assigned, all codes 0
      simp only [Except.ok.injEq] at h
      subst h
      obtain ⟨_, hmem⟩ := foldl_max_bound lens 0
      constructor
      · rw [List.pairwise_iff_getElem]
        intro k k' hk hk' hlt hpos
        exfalso
        have hkl : k < lens.length := by simpa using hk
        have hkm : lens[k] ∈ lens := List.getElem_mem _
        have := hmem _ hkm
        simp only [List.getElem_map] at hpos
        omega
      · intro x hx
        simp only [List.mem_map] at hx
        obtain ⟨l, _, rfl⟩ := hx
        exact ⟨le_refl _, by unfold int32Max; omega⟩
    · -- general case through the outer loop
      obtain ⟨g1, g2, g3, g4, g5⟩ := assignOuter_spec lens _ 1 0 _ out h
      have hlen0 : ∀ l ∈ lens, 0 ≤ l ∧
          l ≤ lens.foldl (fun m c => if c > m then c else m) 0 := by
        intro l hl
        refine ⟨?_, (foldl_max_bound lens 0).2 l hl⟩
        by_contra hneg
        exact h1 (List.any_eq_true.mpr ⟨l, hl, by simp; omega⟩)
      constructor
      · rw [List.pairwise_iff_getElem]
        intro k k' hk hk' hlt hpos heq
        set maxLen := lens.foldl (fun m c => if c > m then c else m) 0 with hm
        have hklens : k < lens.length := by
          have := g1; simp only [List.length_map] at this; omega
        have hk'lens : k' < lens.length := by
          have := g1; simp only [List.length_map] at this; omega
        have hout1 : (out.getD k (0, 0)).1 = lens[k] := by
          rw [g2 k]
          rw [List.getD_eq_getElem _ (0, 0) (by simpa using hklens)]
          simp
        have hout1' : (out.getD k' (0, 0)).1 = lens[k'] := by
          rw [g2 k']
          rw [List.getD_eq_getElem _ (0, 0) (by simpa using hk'lens)]
          simp
        have e1 : out.getD k (0, 0) = out[k] := List.getD_eq_getElem out (0, 0) hk
        have e2 : out.getD k' (0, 0) = out[k'] := List.getD_eq_getElem out (0, 0) hk'
        set L := (out[k]).1 with hL
        have hLmem : lens[k] = L := by rw [← hout1, e1]
        have hbound := hlen0 _ (List.getElem_mem hklens)
        have hLrange : 1 ≤ L ∧ L < 1 + (maxLen.toNat : Int) := by
          rw [← hLmem] at hpos ⊢
          have : (maxLen.toNat : Int) = maxLen := by omega
          omega
        have hpw := g3 L hLrange.1 hLrange.2
        rw [List.pairwise_iff_getElem] at hpw
        exact hpw k k' hk hk' hlt rfl (by rw [← heq])
      · refine g5 ?_
        intro x hx
        simp only [List.mem_map] at hx
        obtain ⟨l, _, rfl⟩ := hx
        exact ⟨le_refl _, by unfold int32Max; omega⟩
  · intro idx t h
    have hidx : ¬(idx = 0 ∨ idx ≥ builtinHuffmanTables.length) := by
      intro hc
      unfold newStandardHuffmanTable at h
      rw [if_pos hc] at h
      exact absurd h (by simp)
    push_neg at hidx
    have hlt : idx < 16 := by
      have := hidx.2
      simpa [builtinHuffmanTables] using this
    have hmap := newStandardHuffmanTable_lengths idx t h
    have h0 := hidx.1
    refine ⟨?_, ?_⟩
    · rw [hmap]
      interval_cases idx
      · exact absurd rfl h0
      all_goals (
        simp only [builtinHuffmanTables, tableLine1, tableLine2, tableLine3, tableLine4,
          tableLine5, tableLine6, tableLine7, tableLine8, tableLine9, tableLine10,
          tableLine11, tableLine12, tableLine13, tableLine14, tableLine15, tl,
          List.getD, List.getElem?_cons_zero, List.getElem?_cons_succ, List.get?_cons_zero,
          List.get?_cons_succ, Option.getD_some,
          kraftSum, List.map_cons, List.map_nil, Int.reduceToNat, Nat.cast_ofNat,
          Nat.cast_one, Nat.cast_zero, Int.toNat_natCast, Int.toNat_one, Int.toNat_zero,
          List.filter, List.foldr]
        norm_num)
    · intro e he
      have hm : e.codeLength ∈ t.entries.map HuffEntry.codeLength :=
        List.mem_map_of_mem _ he
      rw [hmap] at hm
      interval_cases idx
      · exact absurd rfl h0
      all_goals (
        simp only [builtinHuffmanTables, tableLine1, tableLine2, tableLine3, tableLine4,
          tableLine5, tableLine6, tableLine7, tableLine8, tableLine9, tableLine10,
          tableLine11, tableLine12, tableLine13, tableLine14, tableLine15, tl,
          List.getD, List.getElem?_cons_zero, List.getElem?_cons_succ, List.get?_cons_zero,
          List.get?_cons_succ, Option.getD_some,
          List.map_cons, List.map_nil, List.mem_cons, List.not_mem_nil, or_false] at hm
        omega)

/-- Witness for C5 amended: a concrete successful assignment and standard
table 14. -/
theorem C5_distinct_codes_and_standard_kraft_witness :
    (List.Pairwise (fun a b : Int × Int => 0 < a.1 → a.1 = b.1 → a.2 ≠ b.2)
      [(1, 0), (1, 1)] ∧
      ∀ x ∈ ([(1, 0), (1, 1)] : List (Int × Int)), 0 ≤ x.2 ∧ x.2 ≤ int32Max) ∧
    (kraftSum (stdTable14.entries.map HuffEntry.codeLength) ≤ 1 ∧
      ∀ e ∈ stdTable14.entries, e.codeLength ≤ 32) :=
  ⟨C5_distinct_codes_and_standard_kraft.1 [1, 1] [(1, 0), (1, 1)] rfl,
   C5_distinct_codes_and_standard_kraft.2 14 stdTable14 (by decide)⟩

end GoJbig2
